import Mathlib

/-!
Shallow embedding of sharg's `format_parse` command-line parsing engine
(src/include/sharg/detail/format_parse.hpp).

Tokens are modelled as lists of characters (`Tok`), the token buffer as a
list of tokens.  A consumed token is blanked to the empty token, mirroring
the C++ code which overwrites consumed arguments with the empty string.
The `end_of_options_it` iterator is modelled as the index of the first
literal `--` token (or the buffer length if absent); since the buffer is
only ever mutated in place, indices remain stable exactly like the C++
iterators do.
-/

/-- A command-line token: the character sequence of one argument string. -/
abbrev Tok := List Char

/-- Character list of a string literal, for readable concrete tokens. -/
def lit (s : String) : Tok := s.data

/-- The null character, the sentinel used for "no short identifier". -/
def nulChar : Char := Char.ofNat 0

/-- A short (single character) or long (word) identifier, as passed to
`find_option_id` and `identify_and_retrieve_option_value`. -/
inductive OptionId where
  | short (c : Char)
  | long (s : Tok)
deriving DecidableEq

/-- Embeds `prepend_dash`: `-c` for a short identifier, `--name` for a long one. -/
def prependDash : OptionId → Tok
  | .short c => ['-', c]
  | .long s => '-' :: '-' :: s

/-- Embeds `is_empty_id`: the null character for a short id, the empty word for a long id. -/
def isEmptyId : OptionId → Bool
  | .short c => c == nulChar
  | .long s => s.isEmpty

/-- The comparison of `find_option_id`: a short id matches any token that
starts with `-c` (covering `-cValue`, `-c=Value` and bare `-c`); a long id
matches exactly `--name` or any token starting with `--name=`.  An empty
identifier never matches. -/
def matchesId (id : OptionId) (arg : Tok) : Bool :=
  match id with
  | .short c => !(c == nulChar) && (prependDash (.short c)).isPrefixOf arg
  | .long s =>
    !s.isEmpty && (arg == prependDash (.long s) || (prependDash (.long s) ++ ['=']).isPrefixOf arg)

/-- Linear search over token positions `[start, start+fuel)`: the first
position whose token satisfies `p`, or `start+fuel` if none does.  This is
the embedding of `std::find_if` over an iterator range. -/
def findFromAux (p : Tok → Bool) (args : List Tok) : Nat → Nat → Nat
  | start, 0 => start
  | start, fuel+1 => if p (args.getD start []) then start else findFromAux p args (start+1) fuel

/-- Embeds `find_option_id`: the first position in `[start, endIdx)` whose token
matches the identifier, or `endIdx` if the identifier is empty or has no
occurrence. -/
def findOptionId (args : List Tok) (endIdx : Nat) (id : OptionId) (start : Nat) : Nat :=
  if isEmptyId id then endIdx else findFromAux (matchesId id) args start (endIdx - start)

/-- Embeds `option_parse_result`. -/
inductive OptionParseResult where
  | success
  | error
  | overflowError
deriving DecidableEq

/-- The error kinds thrown by `format_parse` (the exception types);
`userInputError` records whether the failure was reported as an overflow
(the "not in the valid range" message) or as an ordinary parse failure. -/
inductive ParserError where
  | tooFewArguments
  | tooManyArguments
  | unknownOption
  | optionDeclaredMultipleTimes
  | requiredOptionMissing
  | userInputError (overflow : Bool)
  | validationError
deriving DecidableEq

/-- Embeds `throw_on_input_error`: turns a failed `option_parse_result` into the
corresponding `user_input_error`. -/
def throwOnInputError (res : OptionParseResult) : Except ParserError Unit :=
  match res with
  | .success => .ok ()
  | .error => .error (.userInputError false)
  | .overflowError => .error (.userInputError true)

/-- Embeds `parse_option_value` for `std::string` targets: plain passthrough. -/
def parseOptionValueStr (_value : Tok) (invalue : Tok) : Tok × OptionParseResult :=
  (invalue, .success)

/-- Embeds `parse_option_value` for `bool` targets: accepts exactly `0`, `1`,
`true`, `false`. -/
def parseOptionValueBool (value : Bool) (invalue : Tok) : Bool × OptionParseResult :=
  if invalue == lit "0" then (false, .success)
  else if invalue == lit "1" then (true, .success)
  else if invalue == lit "true" then (true, .success)
  else if invalue == lit "false" then (false, .success)
  else (value, .error)

/-- Numeric value of a digit sequence. -/
def digitsToNat (ds : List Char) : Nat :=
  ds.foldl (fun n c => n * 10 + (c.toNat - '0'.toNat)) 0

/-- Embeds `parse_option_value` for an 8-bit unsigned arithmetic target, delegating
to the behaviour of `std::from_chars` for `uint8_t`: the longest digit
prefix is converted; no digits means `invalid_argument` (`error`);
a converted value above 255 means `result_out_of_range` (`overflowError`,
checked first exactly as in the source); unconsumed trailing characters
(`res.ptr != end`) mean `error`. -/
def parseOptionValueU8 (value : Nat) (invalue : Tok) : Nat × OptionParseResult :=
  let digits := invalue.takeWhile Char.isDigit
  if digits.isEmpty then (value, .error)
  else if 255 < digitsToNat digits then (value, .overflowError)
  else if digits.length != invalue.length then (value, .error)
  else (digitsToNat digits, .success)

/-- Embeds `parse_option_value` for container targets: parse one element from a
default-initialised temporary and append it to the target on success. -/
def parseOptionValueContainer (pvElem : β → Tok → β × OptionParseResult) (dflt : β)
    (value : List β) (invalue : Tok) : List β × OptionParseResult :=
  let (tmp, res) := pvElem dflt invalue
  match res with
  | .success => (value ++ [tmp], .success)
  | _ => (value, res)

/-- Container coercion for a list-of-strings target. -/
def parseOptionValueStrList (value : List Tok) (invalue : Tok) : List Tok × OptionParseResult :=
  parseOptionValueContainer parseOptionValueStr [] value invalue

/-- Embeds `identify_and_retrieve_option_value`: given the position `optionIt` of a
matched identifier, decide between the `-key=value`, `-keyValue` and
`-key value` forms, blank the consumed tokens, coerce the extracted input
and report the (possibly advanced) iterator.  The components of the result
are (found, value, buffer, iterator). -/
def identifyAndRetrieveOptionValue (pv : α → Tok → α × OptionParseResult) (value : α)
    (args : List Tok) (endIdx : Nat) (optionIt : Nat) (id : OptionId) :
    Except ParserError (Bool × α × List Tok × Nat) :=
  if optionIt != endIdx then
    let idSize := (prependDash id).length
    let tok := args.getD optionIt []
    if idSize < tok.length then
      if tok.getD idSize nulChar == '=' then
        if tok.length == idSize + 1 then Except.error .tooFewArguments
        else
          let inputValue := tok.drop (idSize + 1)
          let args1 := args.set optionIt []
          let (v, res) := pv value inputValue
          (throwOnInputError res).map fun _ => (true, v, args1, optionIt)
      else
        let inputValue := tok.drop idSize
        let args1 := args.set optionIt []
        let (v, res) := pv value inputValue
        (throwOnInputError res).map fun _ => (true, v, args1, optionIt)
    else
      let args1 := args.set optionIt []
      let it1 := optionIt + 1
      if it1 == endIdx then Except.error .tooFewArguments
      else
        let inputValue := args1.getD it1 []
        let args2 := args1.set it1 []
        let (v, res) := pv value inputValue
        (throwOnInputError res).map fun _ => (true, v, args2, it1)
  else Except.ok (false, value, args, optionIt)

/-- Embeds `get_option_by_id`, non-container overload: retrieve the first
occurrence, then fail with `option_declared_multiple_times` if the
identifier occurs again. -/
def getOptionByIdScalar (pv : α → Tok → α × OptionParseResult) (value : α)
    (args : List Tok) (endIdx : Nat) (id : OptionId) :
    Except ParserError (Bool × α × List Tok) := do
  let it := findOptionId args endIdx id 0
  let r ←
    if it != endIdx then identifyAndRetrieveOptionValue pv value args endIdx it id
    else pure (false, value, args, it)
  let (_, v, a, it2) := r
  if findOptionId a endIdx id it2 != endIdx then
    Except.error .optionDeclaredMultipleTimes
  else
    pure (it != endIdx, v, a)

/-- The retrieval loop of the container overload of `get_option_by_id`. -/
def containerLoop (pv : α → Tok → α × OptionParseResult) (endIdx : Nat) (id : OptionId) :
    Nat → α → List Tok → Nat → Except ParserError (α × List Tok)
  | 0, value, args, _ => pure (value, args)
  | fuel+1, value, args, it =>
    if it != endIdx then do
      let (_, v, a, it2) ← identifyAndRetrieveOptionValue pv value args endIdx it id
      containerLoop pv endIdx id fuel v a (findOptionId a endIdx id it2)
    else pure (value, args)

/-- Embeds `get_option_by_id`, container overload: clear the target on the first
occurrence, then extract every further occurrence, each search resuming past
the previous extraction.  The fuel `endIdx + 1` strictly dominates the
number of loop iterations, since the iterator strictly advances. -/
def getOptionByIdContainer (pv : α → Tok → α × OptionParseResult) (clear : α → α)
    (value : α) (args : List Tok) (endIdx : Nat) (id : OptionId) :
    Except ParserError (Bool × α × List Tok) := do
  let it := findOptionId args endIdx id 0
  let value1 := if it != endIdx then clear value else value
  let (v, a) ← containerLoop pv endIdx id (endIdx + 1) value1 args it
  pure (it != endIdx, v, a)

/-- Configuration record of a declared option or flag: identifiers and the
required policy. -/
structure OptConfig where
  shortId : Char
  longId : Tok
  required : Bool
deriving DecidableEq

/-- Embeds `get_option`: retrieve by the short and then by the long identifier,
fail with `option_declared_multiple_times` when a non-container target was
set through both, run the validator on a set target, and fail with
`required_option_missing` when a required option is absent.  The retrieval
by one identifier (`get_option_by_id` overload) is a parameter so that the
same definition serves the scalar and container instantiations. -/
def getOptionWith (byId : α → List Tok → OptionId → Except ParserError (Bool × α × List Tok))
    (isContainer : Bool) (validatorOk : α → Bool) (cfg : OptConfig) (value : α)
    (args : List Tok) : Except ParserError (α × List Tok) := do
  let (shortSet, v1, a1) ← byId value args (.short cfg.shortId)
  let (longSet, v2, a2) ← byId v1 a1 (.long cfg.longId)
  if shortSet && longSet && !isContainer then
    Except.error .optionDeclaredMultipleTimes
  else if shortSet || longSet then
    if validatorOk v2 then pure (v2, a2) else Except.error .validationError
  else if cfg.required then
    Except.error .requiredOptionMissing
  else
    pure (v2, a2)

/-- Embeds `get_option` instantiated at a scalar string target. -/
def getOptionStr (validatorOk : Tok → Bool) (cfg : OptConfig) (value : Tok)
    (args : List Tok) (endIdx : Nat) : Except ParserError (Tok × List Tok) :=
  getOptionWith (fun v a id => getOptionByIdScalar parseOptionValueStr v a endIdx id)
    false validatorOk cfg value args

/-- Embeds `get_option` instantiated at a list-of-strings container target. -/
def getOptionStrList (validatorOk : List Tok → Bool) (cfg : OptConfig) (value : List Tok)
    (args : List Tok) (endIdx : Nat) : Except ParserError (List Tok × List Tok) :=
  getOptionWith
    (fun v a id => getOptionByIdContainer parseOptionValueStrList (fun _ => []) v a endIdx id)
    true validatorOk cfg value args

/-- Embeds `flag_is_set` for a long identifier: exact search for `--name` in
`[begin, end_of_options_it)`, blanking the occurrence. -/
def flagIsSetLong (args : List Tok) (endIdx : Nat) (longId : Tok) : Bool × List Tok :=
  let it := findFromAux (fun a => a == prependDash (.long longId)) args 0 endIdx
  if it != endIdx then (true, args.set it []) else (false, args)

/-- Embeds `flag_is_set` for a short identifier: scan the whole buffer for the
first token of grouped-flag shape (leading dash, length above one, second
character not a dash) containing the flag letter; remove that letter, and
turn a token reduced to a bare dash into the empty token.  Note that,
unlike the long form, this scan is not bounded by the end-of-options
position — it ranges over all of `arguments`. -/
def flagIsSetChar (c : Char) : List Tok → Bool × List Tok
  | [] => (false, [])
  | arg :: rest =>
    if arg.getD 0 nulChar = '-' ∧ 1 < arg.length ∧ arg.getD 1 nulChar ≠ '-' then
      let pos := arg.findIdx (fun x => x == c)
      if pos != arg.length then
        let arg1 := arg.eraseIdx pos
        (true, (if arg1 == ['-'] then [] else arg1) :: rest)
      else
        let (b, rest1) := flagIsSetChar c rest
        (b, arg :: rest1)
    else
      let (b, rest1) := flagIsSetChar c rest
      (b, arg :: rest1)

/-- Embeds `get_flag`: `value = flag_is_set(short) || flag_is_set(long) || value`,
with C++ short-circuit evaluation — when the short form is found the long
form is never scanned, and a previously true value is kept on a miss. -/
def getFlag (value : Bool) (shortId : Char) (longId : Tok) (args : List Tok) (endIdx : Nat) :
    Bool × List Tok :=
  let (b1, a1) := flagIsSetChar shortId args
  if b1 then (true, a1)
  else
    let (b2, a2) := flagIsSetLong a1 endIdx longId
    if b2 then (true, a2) else (value, a2)

/-- The token scan of `check_for_unknown_ids` over the tokens before the
end-of-options marker: a remaining non-empty dash-prefixed token is an
error — a bare dash is skipped as a positional value; a token with one dash
and more than two characters is reported as unknown flags, anything else as
an unknown option (both are thrown as the `unknown_option` exception). -/
def checkTokens : List Tok → Except ParserError Unit
  | [] => .ok ()
  | arg :: rest =>
    if !arg.isEmpty && arg.getD 0 nulChar == '-' then
      if arg == ['-'] then checkTokens rest
      else if !(arg.getD 1 nulChar == '-') && decide (2 < arg.length) then
        Except.error .unknownOption
      else Except.error .unknownOption
    else checkTokens rest

/-- Embeds `check_for_unknown_ids`: scan `[begin, end_of_options_it)`. -/
def checkForUnknownIds (args : List Tok) (endIdx : Nat) : Except ParserError Unit :=
  checkTokens (args.take endIdx)

/-- Embeds `check_for_left_over_args`: any remaining non-empty token anywhere in
the buffer is `too_many_arguments`. -/
def checkForLeftOverArgs (args : List Tok) : Except ParserError Unit :=
  if args.any (fun s => !s.isEmpty) then Except.error .tooManyArguments else .ok ()

/-- Embeds `get_positional_option` for a scalar target: consume the first
non-empty token of the whole buffer, failing with `too_few_arguments` when
none remains, then validate. -/
def getPositionalScalar (pv : α → Tok → α × OptionParseResult) (validatorOk : α → Bool)
    (value : α) (args : List Tok) : Except ParserError (α × List Tok) := do
  let it := args.findIdx (fun s => !s.isEmpty)
  if it == args.length then Except.error .tooFewArguments
  else
    let (v, res) := pv value (args.getD it [])
    (throwOnInputError res).bind fun _ =>
      let a := args.set it []
      if validatorOk v then pure (v, a) else Except.error .validationError

/-- The retrieval loop of the container branch of `get_positional_option`:
coerce and blank the token under the iterator, then resume the non-empty
search from that position, until the buffer end. -/
def positionalLoop (pv : α → Tok → α × OptionParseResult) :
    Nat → α → List Tok → Nat → Except ParserError (α × List Tok)
  | 0, value, args, _ => pure (value, args)
  | fuel+1, value, args, it =>
    if it != args.length then
      let (v, res) := pv value (args.getD it [])
      (throwOnInputError res).bind fun _ =>
        let a := args.set it []
        positionalLoop pv fuel v a (findFromAux (fun s => !s.isEmpty) a it (a.length - it))
    else pure (value, args)

/-- Embeds `get_positional_option` for a container target: fail with
`too_few_arguments` when no non-empty token remains, otherwise clear the
target, consume every remaining non-empty token in order, then validate. -/
def getPositionalContainer (pv : α → Tok → α × OptionParseResult) (clear : α → α)
    (validatorOk : α → Bool) (value : α) (args : List Tok) :
    Except ParserError (α × List Tok) := do
  let it := args.findIdx (fun s => !s.isEmpty)
  if it == args.length then Except.error .tooFewArguments
  else do
    let (v, a) ← positionalLoop pv (args.length + 1) (clear value) args it
    if validatorOk v then pure (v, a) else Except.error .validationError

/-- Value universe for the target slots bound by the deferred calls. -/
inductive Val where
  | vTok (s : Tok)
  | vTokList (l : List Tok)
  | vBool (b : Bool)
  | vNat (n : Nat)
deriving DecidableEq

/-- The state owned by one parse invocation: the shared mutable token
buffer, the position of the first `--` token (the `end_of_options_it`
iterator), the environment of target slots captured by the deferred calls,
and the positional counter. -/
structure St where
  args : List Tok
  endIdx : Nat
  env : List Val
  posCount : Nat
deriving DecidableEq

/-- A deferred retrieval call, as stored in `option_calls`, `flag_calls`
and `positional_option_calls`. -/
abbrev Op := St → Except ParserError St

/-- Execute a list of deferred calls in declaration order. -/
def runCalls (calls : List Op) (s : St) : Except ParserError St :=
  calls.foldlM (fun s f => f s) s

/-- Position of the first literal `--` token, or the buffer length. -/
def endOfOptionsIdx (args : List Tok) : Nat :=
  args.findIdx (fun a => a == lit "--")

/-- Embeds `format_parse::parse`: fix the end-of-options position, run all option
calls, then all flag calls, check for unknown identifiers, blank the `--`
token if present, run all positional calls, and check for leftover
arguments.  A raised error aborts the remaining phases through the
exception monad. -/
def parse (optionCalls flagCalls positionalCalls : List Op) (s0 : St) :
    Except ParserError St := do
  let s1 := { s0 with endIdx := endOfOptionsIdx s0.args }
  let s2 ← runCalls optionCalls s1
  let s3 ← runCalls flagCalls s2
  checkForUnknownIds s3.args s3.endIdx
  let s4 :=
    if s3.endIdx != s3.args.length then { s3 with args := s3.args.set s3.endIdx [] } else s3
  let s5 ← runCalls positionalCalls s4
  checkForLeftOverArgs s5.args
  pure s5

/-- Read a boolean target slot. -/
def envBool (env : List Val) (k : Nat) : Bool :=
  match env.getD k (.vBool false) with
  | .vBool b => b
  | _ => false

/-- Read a list-of-tokens target slot. -/
def envTokList (env : List Val) (k : Nat) : List Tok :=
  match env.getD k (.vTokList []) with
  | .vTokList l => l
  | _ => []

/-- The deferred call registered by `add_flag`, bound to slot `k`. -/
def flagOp (shortId : Char) (longId : Tok) (k : Nat) : Op := fun s =>
  let (v, a) := getFlag (envBool s.env k) shortId longId s.args s.endIdx
  .ok { s with args := a, env := s.env.set k (.vBool v) }

/-- An instrumented deferred call that only records its execution by
appending a marker to the list target in slot 0; used to observe the
orchestrator's execution order. -/
def probeOp (m : Tok) : Op := fun s =>
  .ok { s with env := s.env.set 0 (.vTokList (envTokList s.env 0 ++ [m])) }

/-- A deferred call that raises the given error. -/
def failOp (e : ParserError) : Op := fun _ => .error e

/-! ### Generic list helpers -/

theorem getD_set_ne {α : Type} (l : List α) (i j : Nat) (x d : α) (h : i ≠ j) :
    (l.set i x).getD j d = l.getD j d := by
  simp [List.getD_eq_getElem?_getD, List.getElem?_set_ne h]

theorem getD_set_self {α : Type} (l : List α) (i : Nat) (x d : α) (h : i < l.length) :
    (l.set i x).getD i d = x := by
  simp [List.getD_eq_getElem?_getD, List.getElem?_set_self h]

theorem getD_drop {α : Type} (l : List α) (i j : Nat) (d : α) :
    (l.drop i).getD j d = l.getD (i + j) d := by
  simp [List.getD_eq_getElem?_getD, List.getElem?_drop]

/-! ### Specification of the linear search -/

theorem findFromAux_ge (p : Tok → Bool) (args : List Tok) (start fuel : Nat) :
    start ≤ findFromAux p args start fuel := by
  induction fuel generalizing start with
  | zero => simp [findFromAux]
  | succ n ih =>
    simp only [findFromAux]
    split
    · exact Nat.le_refl _
    · exact Nat.le_trans (Nat.le_succ _) (ih (start + 1))

theorem findFromAux_le (p : Tok → Bool) (args : List Tok) (start fuel : Nat) :
    findFromAux p args start fuel ≤ start + fuel := by
  induction fuel generalizing start with
  | zero => simp [findFromAux]
  | succ n ih =>
    simp only [findFromAux]
    split
    · exact Nat.le_add_right _ _
    · exact Nat.le_trans (ih (start + 1)) (by omega)

theorem findFromAux_succ (p : Tok → Bool) (args : List Tok) (start n : Nat) :
    findFromAux p args start (n + 1) =
      if p (args.getD start []) then start else findFromAux p args (start + 1) n := rfl

theorem findFromAux_not_lt (p : Tok → Bool) (args : List Tok) (start fuel : Nat) :
    ∀ i, start ≤ i → i < findFromAux p args start fuel → p (args.getD i []) = false := by
  induction fuel generalizing start with
  | zero =>
    intro i h1 h2
    rw [show findFromAux p args start 0 = start from rfl] at h2
    omega
  | succ n ih =>
    intro i h1 h2
    rw [findFromAux_succ] at h2
    by_cases hp : p (args.getD start []) = true
    · rw [if_pos hp] at h2; omega
    · rw [if_neg hp] at h2
      rcases Nat.eq_or_lt_of_le h1 with h | h
      · rw [← h]
        exact (Bool.not_eq_true _).mp hp
      · exact ih (start + 1) i h h2

theorem findFromAux_found (p : Tok → Bool) (args : List Tok) (start fuel : Nat)
    (h : findFromAux p args start fuel < start + fuel) :
    p (args.getD (findFromAux p args start fuel) []) = true := by
  induction fuel generalizing start with
  | zero =>
    rw [show findFromAux p args start 0 = start from rfl] at h
    omega
  | succ n ih =>
    rw [findFromAux_succ] at h ⊢
    by_cases hp : p (args.getD start []) = true
    · rw [if_pos hp]
      exact hp
    · rw [if_neg hp] at h ⊢
      exact ih (start + 1) (by omega)

theorem findFromAux_eq_of_none (p : Tok → Bool) (args : List Tok) (start fuel : Nat)
    (h : ∀ i, start ≤ i → i < start + fuel → p (args.getD i []) = false) :
    findFromAux p args start fuel = start + fuel := by
  induction fuel generalizing start with
  | zero => rfl
  | succ n ih =>
    have h0 : p (args.getD start []) = false := h start (Nat.le_refl _) (by omega)
    rw [findFromAux_succ, if_neg ((Bool.not_eq_true _).mpr h0),
      ih (start + 1) (fun i h1 h2 => h i (by omega) (by omega))]
    omega

theorem findFromAux_le_of_found (p : Tok → Bool) (args : List Tok) (start fuel i : Nat)
    (h1 : start ≤ i) (h2 : i < start + fuel) (h3 : p (args.getD i []) = true) :
    findFromAux p args start fuel ≤ i := by
  by_contra hlt
  have hfalse := findFromAux_not_lt p args start fuel i h1 (by omega)
  rw [h3] at hfalse
  exact Bool.true_eq_false ▸ hfalse

theorem findFromAux_congr (p : Tok → Bool) (args args' : List Tok) (start fuel : Nat)
    (h : ∀ i, start ≤ i → i < start + fuel → args.getD i [] = args'.getD i []) :
    findFromAux p args start fuel = findFromAux p args' start fuel := by
  induction fuel generalizing start with
  | zero => rfl
  | succ n ih =>
    rw [findFromAux_succ, findFromAux_succ, h start (Nat.le_refl _) (by omega)]
    by_cases hp : p (args'.getD start []) = true
    · rw [if_pos hp, if_pos hp]
    · rw [if_neg hp, if_neg hp]
      exact ih (start + 1) (fun i h1 h2 => h i (by omega) (by omega))

theorem findFromAux_shift (p : Tok → Bool) (a : Tok) (args : List Tok) (start fuel : Nat) :
    findFromAux p (a :: args) (start + 1) fuel = findFromAux p args start fuel + 1 := by
  induction fuel generalizing start with
  | zero => rfl
  | succ n ih =>
    rw [findFromAux_succ, findFromAux_succ, List.getD_cons_succ]
    by_cases hp : p (args.getD start []) = true
    · rw [if_pos hp, if_pos hp]
    · rw [if_neg hp, if_neg hp]
      exact ih (start + 1)

/-! ### Specification of find_option_id and the matching predicate -/

theorem matchesId_empty (id : OptionId) (h : isEmptyId id = true) (arg : Tok) :
    matchesId id arg = false := by
  cases id with
  | short c => simp [isEmptyId] at h; simp [matchesId, h]
  | long s => simp [isEmptyId] at h; simp [matchesId, h]

theorem matchesId_nil (id : OptionId) : matchesId id [] = false := by
  cases id with
  | short c =>
    simp only [matchesId, prependDash]
    by_cases h : c == nulChar
    · simp [h]
    · simp [h, List.isPrefixOf_iff_prefix]
  | long s =>
    simp only [matchesId, prependDash]
    by_cases h : s.isEmpty
    · simp [h]
    · simp only [h, Bool.not_false, Bool.true_and, Bool.or_eq_false_iff]
      constructor
      · simp
      · simp [ List.isPrefixOf_iff_prefix]

theorem findOptionId_le (args : List Tok) (endIdx : Nat) (id : OptionId) (start : Nat)
    (h : start ≤ endIdx) : findOptionId args endIdx id start ≤ endIdx := by
  unfold findOptionId
  split
  · exact Nat.le_refl _
  · exact Nat.le_trans (findFromAux_le _ _ _ _) (by omega)

theorem findOptionId_ge (args : List Tok) (endIdx : Nat) (id : OptionId) (start : Nat)
    (h : start ≤ endIdx) : start ≤ findOptionId args endIdx id start := by
  unfold findOptionId
  split
  · exact h
  · exact findFromAux_ge _ _ _ _

theorem findOptionId_not_lt (args : List Tok) (endIdx : Nat) (id : OptionId) (start i : Nat)
    (h1 : start ≤ i) (h2 : i < findOptionId args endIdx id start) :
    matchesId id (args.getD i []) = false := by
  unfold findOptionId at h2
  by_cases he : isEmptyId id = true
  · exact matchesId_empty id he _
  · rw [if_neg he] at h2
    exact findFromAux_not_lt _ _ _ _ i h1 h2

theorem findOptionId_found (args : List Tok) (endIdx : Nat) (id : OptionId) (start : Nat)
    (hs : start ≤ endIdx) (h : findOptionId args endIdx id start ≠ endIdx) :
    findOptionId args endIdx id start < endIdx ∧
      matchesId id (args.getD (findOptionId args endIdx id start) []) = true := by
  have hle := findOptionId_le args endIdx id start hs
  have hlt : findOptionId args endIdx id start < endIdx := by omega
  refine ⟨hlt, ?_⟩
  unfold findOptionId at hlt ⊢
  by_cases he : isEmptyId id = true
  · simp [he] at hlt
  · rw [if_neg he] at hlt ⊢
    exact findFromAux_found _ _ _ _ (by omega)

theorem findOptionId_eq_end_of_none (args : List Tok) (endIdx : Nat) (id : OptionId)
    (start : Nat) (hs : start ≤ endIdx)
    (h : ∀ i, start ≤ i → i < endIdx → matchesId id (args.getD i []) = false) :
    findOptionId args endIdx id start = endIdx := by
  unfold findOptionId
  split
  · rfl
  · rw [findFromAux_eq_of_none _ _ _ _ (fun i h1 h2 => h i h1 (by omega))]
    omega

theorem findOptionId_le_of_found (args : List Tok) (endIdx : Nat) (id : OptionId)
    (start i : Nat) (h1 : start ≤ i) (h2 : i < endIdx)
    (h3 : matchesId id (args.getD i []) = true) :
    findOptionId args endIdx id start ≤ i := by
  unfold findOptionId
  split
  · rename_i he
    rw [matchesId_empty id he] at h3
    exact absurd h3 (by simp)
  · exact findFromAux_le_of_found _ _ _ _ i h1 (by omega) h3

theorem matchesId_short_iff (c : Char) (arg : Tok) (hc : c ≠ nulChar) :
    matchesId (.short c) arg = true ↔ ∃ t, arg = '-' :: c :: t := by
  simp only [matchesId, prependDash, Bool.and_eq_true, Bool.not_eq_true', beq_eq_false_iff_ne,
    List.isPrefixOf_iff_prefix]
  constructor
  · rintro ⟨-, t, ht⟩
    exact ⟨t, ht.symm⟩
  · rintro ⟨t, rfl⟩
    exact ⟨hc, t, rfl⟩

theorem matchesId_long_iff (s : Tok) (arg : Tok) (hs : s ≠ []) :
    matchesId (.long s) arg = true ↔
      arg = '-' :: '-' :: s ∨ ∃ t, arg = ('-' :: '-' :: s) ++ '=' :: t := by
  have hse : s.isEmpty = false := by simpa using hs
  simp only [matchesId, prependDash, hse, Bool.not_false, Bool.true_and, Bool.or_eq_true,
    beq_iff_eq, List.isPrefixOf_iff_prefix]
  constructor
  · rintro (h | ⟨t, ht⟩)
    · exact Or.inl h
    · exact Or.inr ⟨t, by rw [← ht]; simp⟩
  · rintro (rfl | ⟨t, rfl⟩)
    · exact Or.inl rfl
    · exact Or.inr ⟨t, by simp⟩

theorem matchesId_short_getD1 (c : Char) (arg : Tok) (h : matchesId (.short c) arg = true) :
    arg.getD 1 nulChar = c := by
  have hc : c ≠ nulChar := by
    intro hc
    rw [hc] at h
    simpa [matchesId] using h
  obtain ⟨t, rfl⟩ := (matchesId_short_iff c arg hc).mp h
  rfl

theorem matchesId_long_getD1 (s : Tok) (arg : Tok) (h : matchesId (.long s) arg = true) :
    arg.getD 1 nulChar = '-' := by
  have hs : s ≠ [] := by
    intro hs
    rw [hs] at h
    simpa [matchesId] using h
  rcases (matchesId_long_iff s arg hs).mp h with rfl | ⟨t, rfl⟩ <;> rfl

theorem matchesId_long_of_short (c : Char) (s : Tok) (arg : Tok) (hc : c ≠ '-')
    (h : matchesId (.short c) arg = true) : matchesId (.long s) arg = false := by
  by_contra hl
  rw [Bool.not_eq_false] at hl
  exact hc (matchesId_short_getD1 c arg h ▸ matchesId_long_getD1 s arg hl)

theorem matchesId_short_of_long (c : Char) (s : Tok) (arg : Tok) (hc : c ≠ '-')
    (h : matchesId (.long s) arg = true) : matchesId (.short c) arg = false := by
  by_contra hl
  rw [Bool.not_eq_false] at hl
  exact hc (matchesId_short_getD1 c arg hl ▸ matchesId_long_getD1 s arg h)

/-! ### Behaviour of identify_and_retrieve_option_value -/

theorem getD_set_nil (l : List Tok) (i : Nat) : (l.set i []).getD i [] = [] := by
  by_cases h : i < l.length
  · exact getD_set_self _ _ _ _ h
  · rw [List.getD_eq_getElem?_getD, List.getElem?_eq_none (by simpa using Nat.le_of_not_lt h)]
    rfl

theorem identifyAndRetrieve_eqForm {α : Type} (pv : α → Tok → α × OptionParseResult)
    (value : α) (args : List Tok) (endIdx p : Nat) (id : OptionId) (w : Tok)
    (hp : p ≠ endIdx) (htok : args.getD p [] = prependDash id ++ '=' :: w) (hw : w ≠ []) :
    identifyAndRetrieveOptionValue pv value args endIdx p id =
      (throwOnInputError (pv value w).2).map
        fun _ => (true, (pv value w).1, args.set p [], p) := by
  have hbne : (p != endIdx) = true := by simpa using hp
  have hwpos : 0 < w.length := List.length_pos.mpr hw
  have hlen : (args.getD p []).length = (prependDash id).length + 1 + w.length := by
    rw [htok]
    simp only [List.length_append, List.length_cons]
    omega
  have hc1 : (prependDash id).length < (args.getD p []).length := by omega
  have hc2 : ((args.getD p []).getD (prependDash id).length nulChar == '=') = true := by
    rw [htok, List.getD_append_right _ _ _ _ (Nat.le_refl _), Nat.sub_self, List.getD_cons_zero]
    exact beq_self_eq_true _
  have hc3 : ¬ ((args.getD p []).length == (prependDash id).length + 1) = true := by
    rw [beq_iff_eq]
    omega
  have hc4 : (args.getD p []).drop ((prependDash id).length + 1) = w := by
    rw [htok, show prependDash id ++ '=' :: w = (prependDash id ++ ['=']) ++ w by simp,
      show (prependDash id).length + 1 = (prependDash id ++ ['=']).length by simp,
      List.drop_left]
  rcases hpv : pv value w with ⟨v, res⟩
  simp only [identifyAndRetrieveOptionValue]
  rw [if_pos hbne, if_pos hc1, if_pos hc2, if_neg hc3, hc4, hpv]

theorem identifyAndRetrieve_eqForm_str (value : Tok) (args : List Tok) (endIdx p : Nat)
    (id : OptionId) (w : Tok) (hp : p ≠ endIdx)
    (htok : args.getD p [] = prependDash id ++ '=' :: w) (hw : w ≠ []) :
    identifyAndRetrieveOptionValue parseOptionValueStr value args endIdx p id =
      .ok (true, w, args.set p [], p) := by
  rw [identifyAndRetrieve_eqForm parseOptionValueStr value args endIdx p id w hp htok hw]
  rfl

theorem identifyAndRetrieve_eqForm_strList (value : List Tok) (args : List Tok) (endIdx p : Nat)
    (id : OptionId) (w : Tok) (hp : p ≠ endIdx)
    (htok : args.getD p [] = prependDash id ++ '=' :: w) (hw : w ≠ []) :
    identifyAndRetrieveOptionValue parseOptionValueStrList value args endIdx p id =
      .ok (true, value ++ [w], args.set p [], p) := by
  rw [identifyAndRetrieve_eqForm parseOptionValueStrList value args endIdx p id w hp htok hw]
  rfl

theorem identifyAndRetrieve_ok {α : Type} (pv : α → Tok → α × OptionParseResult) (value : α)
    (args : List Tok) (endIdx it : Nat) (id : OptionId)
    (out : Bool × α × List Tok × Nat) (hlt : it < endIdx)
    (hok : identifyAndRetrieveOptionValue pv value args endIdx it id = .ok out) :
    it ≤ out.2.2.2 ∧ out.2.2.2 < endIdx ∧ out.2.2.1.getD out.2.2.2 [] = [] ∧
      (∀ i, endIdx ≤ i → out.2.2.1.getD i [] = args.getD i []) ∧
      (∀ i, out.2.2.1.getD i [] = args.getD i [] ∨ out.2.2.1.getD i [] = []) ∧
      out.2.2.1.length = args.length := by
  have hbne : (it != endIdx) = true := by simpa using Nat.ne_of_lt hlt
  simp only [identifyAndRetrieveOptionValue] at hok
  rw [if_pos hbne] at hok
  by_cases hA : (prependDash id).length < (args.getD it []).length
  · rw [if_pos hA] at hok
    by_cases hB : ((args.getD it []).getD (prependDash id).length nulChar == '=') = true
    · rw [if_pos hB] at hok
      by_cases hC : ((args.getD it []).length == (prependDash id).length + 1) = true
      · rw [if_pos hC] at hok
        exact absurd hok (by simp)
      · rw [if_neg hC] at hok
        rcases hpv : pv value ((args.getD it []).drop ((prependDash id).length + 1))
          with ⟨v, res⟩
        rw [hpv] at hok
        cases res with
        | success =>
          simp only [throwOnInputError, Except.map] at hok
          injection hok with h
          subst h
          refine ⟨Nat.le_refl _, hlt, getD_set_nil _ _, ?_, ?_, List.length_set _ _ _⟩
          · exact fun i hi => getD_set_ne _ _ _ _ _ (by omega)
          · intro i
            by_cases hii : it = i
            · subst hii
              exact Or.inr (getD_set_nil _ _)
            · exact Or.inl (getD_set_ne _ _ _ _ _ hii)
        | error => exact absurd hok (by simp [throwOnInputError, Except.map])
        | overflowError => exact absurd hok (by simp [throwOnInputError, Except.map])
    · rw [if_neg hB] at hok
      rcases hpv : pv value ((args.getD it []).drop (prependDash id).length) with ⟨v, res⟩
      rw [hpv] at hok
      cases res with
      | success =>
        simp only [throwOnInputError, Except.map] at hok
        injection hok with h
        subst h
        refine ⟨Nat.le_refl _, hlt, getD_set_nil _ _, ?_, ?_, List.length_set _ _ _⟩
        · exact fun i hi => getD_set_ne _ _ _ _ _ (by omega)
        · intro i
          by_cases hii : it = i
          · subst hii
            exact Or.inr (getD_set_nil _ _)
          · exact Or.inl (getD_set_ne _ _ _ _ _ hii)
      | error => exact absurd hok (by simp [throwOnInputError, Except.map])
      | overflowError => exact absurd hok (by simp [throwOnInputError, Except.map])
  · rw [if_neg hA] at hok
    by_cases hD : (it + 1 == endIdx) = true
    · rw [if_pos hD] at hok
      exact absurd hok (by simp)
    · rw [if_neg hD] at hok
      have hD' : it + 1 ≠ endIdx := by simpa using hD
      rcases hpv : pv value ((args.set it []).getD (it + 1) []) with ⟨v, res⟩
      rw [hpv] at hok
      cases res with
      | success =>
        simp only [throwOnInputError, Except.map] at hok
        injection hok with h
        subst h
        refine ⟨Nat.le_succ _, by show it + 1 < endIdx; omega, getD_set_nil _ _, ?_, ?_, ?_⟩
        · intro i hi
          rw [getD_set_ne _ _ _ _ _ (by omega), getD_set_ne _ _ _ _ _ (by omega)]
        · intro i
          by_cases hi1 : it + 1 = i
          · subst hi1
            exact Or.inr (getD_set_nil _ _)
          · by_cases hi0 : it = i
            · subst hi0
              rw [getD_set_ne _ _ _ _ _ hi1]
              exact Or.inr (getD_set_nil _ _)
            · rw [getD_set_ne _ _ _ _ _ hi1, getD_set_ne _ _ _ _ _ hi0]
              exact Or.inl rfl
        · rw [List.length_set, List.length_set]
      | error => exact absurd hok (by simp [throwOnInputError, Except.map])
      | overflowError => exact absurd hok (by simp [throwOnInputError, Except.map])

/-! ### Behaviour of the scalar get_option_by_id on attached-equals buffers -/

theorem getOptionByIdScalar_eqForm (args : List Tok) (endIdx : Nat) (id : OptionId) (v0 : Tok)
    (H : ∀ i, i < endIdx → matchesId id (args.getD i []) = true →
      ∃ w, w ≠ [] ∧ args.getD i [] = prependDash id ++ '=' :: w)
    (hex : ∃ i, i < endIdx ∧ matchesId id (args.getD i []) = true) :
    getOptionByIdScalar parseOptionValueStr v0 args endIdx id =
        .error .optionDeclaredMultipleTimes ∨
      ∃ p w, p < endIdx ∧ args.getD p [] = prependDash id ++ '=' :: w ∧ w ≠ [] ∧
        (∀ i, i < endIdx → i ≠ p → matchesId id (args.getD i []) = false) ∧
        getOptionByIdScalar parseOptionValueStr v0 args endIdx id =
          .ok (true, w, args.set p []) := by
  obtain ⟨i0, hi0, hm0⟩ := hex
  have hple : findOptionId args endIdx id 0 ≤ i0 :=
    findOptionId_le_of_found args endIdx id 0 i0 (Nat.zero_le _) hi0 hm0
  set p := findOptionId args endIdx id 0 with hpdef
  have hplt : p < endIdx := by omega
  have hpne : p ≠ endIdx := by omega
  have hmatch : matchesId id (args.getD p []) = true :=
    (findOptionId_found args endIdx id 0 (Nat.zero_le _) hpne).2
  obtain ⟨w, hw, htok⟩ := H p hplt hmatch
  have hext := identifyAndRetrieve_eqForm_str v0 args endIdx p id w hpne htok hw
  have hbne : (p != endIdx) = true := by simpa using hpne
  by_cases hq : findOptionId (args.set p []) endIdx id p = endIdx
  · refine Or.inr ⟨p, w, hplt, htok, hw, ?_, ?_⟩
    · intro i hi hip
      rcases Nat.lt_or_ge i p with hlt | hge
      · exact findOptionId_not_lt args endIdx id 0 i (Nat.zero_le _) hlt
      · by_contra hmi
        rw [Bool.not_eq_false] at hmi
        have hmi' : matchesId id ((args.set p []).getD i []) = true := by
          rwa [getD_set_ne _ _ _ _ _ (fun h => hip h.symm)]
        have := findOptionId_le_of_found (args.set p []) endIdx id p i hge hi hmi'
        omega
    · simp only [getOptionByIdScalar, ← hpdef]
      rw [if_pos hbne, hext]
      simp only [bind, Except.bind]
      rw [if_neg (by simp [hq]), hbne]
      rfl
  · refine Or.inl ?_
    simp only [getOptionByIdScalar, ← hpdef]
    rw [if_pos hbne, hext]
    simp only [bind, Except.bind]
    rw [if_pos (by simpa using hq)]

/-! ### Retrieval when an identifier has no occurrence -/

theorem findOptionId_self (args : List Tok) (endIdx : Nat) (id : OptionId) :
    findOptionId args endIdx id endIdx = endIdx := by
  unfold findOptionId
  split
  · rfl
  · rw [Nat.sub_self]
    rfl

theorem getOptionByIdScalar_none {α : Type} (pv : α → Tok → α × OptionParseResult) (v0 : α)
    (args : List Tok) (endIdx : Nat) (id : OptionId)
    (h : ∀ i, i < endIdx → matchesId id (args.getD i []) = false) :
    getOptionByIdScalar pv v0 args endIdx id = .ok (false, v0, args) := by
  have hfind : findOptionId args endIdx id 0 = endIdx :=
    findOptionId_eq_end_of_none args endIdx id 0 (Nat.zero_le _) (fun i _ h2 => h i h2)
  simp only [getOptionByIdScalar, hfind, pure, bind, Except.bind, Except.pure]
  rw [findOptionId_self]
  simp

theorem containerLoop_exit {α : Type} (pv : α → Tok → α × OptionParseResult) (endIdx : Nat)
    (id : OptionId) (fuel : Nat) (value : α) (args : List Tok) (hf : 0 < fuel) :
    containerLoop pv endIdx id fuel value args endIdx = .ok (value, args) := by
  cases fuel with
  | zero => omega
  | succ n =>
    simp only [containerLoop]
    rw [if_neg (by simp)]
    rfl

theorem getOptionByIdContainer_none {α : Type} (pv : α → Tok → α × OptionParseResult)
    (clear : α → α) (v0 : α) (args : List Tok) (endIdx : Nat) (id : OptionId)
    (h : ∀ i, i < endIdx → matchesId id (args.getD i []) = false) :
    getOptionByIdContainer pv clear v0 args endIdx id = .ok (false, v0, args) := by
  have hfind : findOptionId args endIdx id 0 = endIdx :=
    findOptionId_eq_end_of_none args endIdx id 0 (Nat.zero_le _) (fun i _ h2 => h i h2)
  simp only [getOptionByIdContainer, hfind]
  rw [if_neg (by simp), containerLoop_exit pv endIdx id (endIdx + 1) v0 args (by omega)]
  simp only [bind, Except.bind, pure, Except.pure]
  simp

theorem findOptionId_step (args : List Tok) (endIdx : Nat) (id : OptionId) (p : Nat)
    (hp : p < endIdx) (hm : matchesId id (args.getD p []) = false) :
    findOptionId args endIdx id p = findOptionId args endIdx id (p + 1) := by
  unfold findOptionId
  split
  · rfl
  · rw [show endIdx - p = (endIdx - (p + 1)) + 1 by omega, findFromAux_succ,
      if_neg ((Bool.not_eq_true _).mpr hm)]

/-! ### Specification-side scan of attached-equals short-identifier values -/

/-- The values of the attached-equals short-id occurrences among token
positions `[i, i+fuel)`, in buffer order. -/
def collectEqShort (k : Char) (args : List Tok) : Nat → Nat → List Tok
  | _, 0 => []
  | i, fuel+1 =>
    if matchesId (.short k) (args.getD i []) then
      (args.getD i []).drop 3 :: collectEqShort k args (i + 1) fuel
    else collectEqShort k args (i + 1) fuel

theorem collectEqShort_succ (k : Char) (args : List Tok) (i fuel : Nat) :
    collectEqShort k args i (fuel + 1) =
      if matchesId (.short k) (args.getD i []) then
        (args.getD i []).drop 3 :: collectEqShort k args (i + 1) fuel
      else collectEqShort k args (i + 1) fuel := rfl

theorem collectEqShort_nil_of_none (k : Char) (args : List Tok) (j fuel : Nat)
    (h : ∀ i, j ≤ i → i < j + fuel → matchesId (.short k) (args.getD i []) = false) :
    collectEqShort k args j fuel = [] := by
  induction fuel generalizing j with
  | zero => rfl
  | succ n ih =>
    rw [collectEqShort_succ, if_neg ((Bool.not_eq_true _).mpr (h j (Nat.le_refl _) (by omega)))]
    exact ih (j + 1) (fun i h1 h2 => h i (by omega) (by omega))

theorem collectEqShort_skip (k : Char) (args : List Tok) (p : Nat) :
    ∀ fuel j, j ≤ p → p ≤ j + fuel →
      (∀ i, j ≤ i → i < p → matchesId (.short k) (args.getD i []) = false) →
      collectEqShort k args j fuel = collectEqShort k args p (j + fuel - p) := by
  intro fuel
  induction fuel with
  | zero =>
    intro j h1 h2 _
    have hpj : p = j := by omega
    subst hpj
    rw [show p + 0 - p = 0 by omega]
  | succ n ih =>
    intro j h1 h2 h
    rcases Nat.eq_or_lt_of_le h1 with rfl | hlt
    · rw [show j + (n + 1) - j = n + 1 by omega]
    · rw [collectEqShort_succ, if_neg ((Bool.not_eq_true _).mpr (h j (Nat.le_refl _) hlt)),
        ih (j + 1) hlt (by omega) (fun i hi1 hi2 => h i (by omega) hi2),
        show j + 1 + n - p = j + (n + 1) - p by omega]

theorem collectEqShort_congr (k : Char) (args args' : List Tok) :
    ∀ fuel j, (∀ i, j ≤ i → i < j + fuel → args.getD i [] = args'.getD i []) →
      collectEqShort k args j fuel = collectEqShort k args' j fuel := by
  intro fuel
  induction fuel with
  | zero => intro j _; rfl
  | succ n ih =>
    intro j h
    rw [collectEqShort_succ, collectEqShort_succ, h j (Nat.le_refl _) (by omega),
      ih (j + 1) (fun i h1 h2 => h i (by omega) (by omega))]

theorem collectEqShort_ne_nil (k : Char) (args : List Tok) :
    ∀ fuel j i, j ≤ i → i < j + fuel → matchesId (.short k) (args.getD i []) = true →
      collectEqShort k args j fuel ≠ [] := by
  intro fuel
  induction fuel with
  | zero => intro j i h1 h2; omega
  | succ n ih =>
    intro j i h1 h2 hm
    rw [collectEqShort_succ]
    by_cases hj : matchesId (.short k) (args.getD j []) = true
    · rw [if_pos hj]
      exact List.cons_ne_nil _ _
    · rw [if_neg hj]
      have hij : j ≠ i := fun h => hj (h ▸ hm)
      exact ih (j + 1) i (by omega) (by omega) hm

/-! ### The container retrieval loop on attached-equals buffers -/

theorem containerLoop_eqForm (k : Char) (endIdx : Nat) :
    ∀ fuel (args : List Tok) (j : Nat) (value : List Tok),
      (∀ i, i < endIdx → matchesId (.short k) (args.getD i []) = true →
        ∃ w, w ≠ [] ∧ args.getD i [] = '-' :: k :: '=' :: w) →
      j ≤ endIdx → endIdx - j < fuel →
      ∃ a2, containerLoop parseOptionValueStrList endIdx (.short k) fuel value args
          (findOptionId args endIdx (.short k) j) =
          .ok (value ++ collectEqShort k args j (endIdx - j), a2) ∧
        (∀ i, a2.getD i [] = args.getD i [] ∨ a2.getD i [] = []) := by
  intro fuel
  induction fuel with
  | zero =>
    intro args j value H h1 h2
    omega
  | succ n ih =>
    intro args j value H h1 h2
    set p := findOptionId args endIdx (.short k) j with hpdef
    by_cases hp : p = endIdx
    · refine ⟨args, ?_, fun i => Or.inl rfl⟩
      rw [hp, containerLoop_exit parseOptionValueStrList endIdx (.short k) (n + 1) value args
          (by omega),
        collectEqShort_nil_of_none k args j (endIdx - j)
          (fun i hi1 hi2 => findOptionId_not_lt args endIdx (.short k) j i hi1 (by omega)),
        List.append_nil]
    · have hple : p ≤ endIdx := findOptionId_le args endIdx (.short k) j h1
      have hplt : p < endIdx := by omega
      have hpge : j ≤ p := findOptionId_ge args endIdx (.short k) j h1
      have hmatch : matchesId (.short k) (args.getD p []) = true :=
        (findOptionId_found args endIdx (.short k) j h1 hp).2
      obtain ⟨w, hw, htok⟩ := H p hplt hmatch
      have htok' : args.getD p [] = prependDash (.short k) ++ '=' :: w := htok
      have hext := identifyAndRetrieve_eqForm_strList value args endIdx p (.short k) w hp htok' hw
      have hbne : (p != endIdx) = true := by simpa using hp
      have hstep : findOptionId (args.set p []) endIdx (.short k) p =
          findOptionId (args.set p []) endIdx (.short k) (p + 1) :=
        findOptionId_step _ endIdx _ p hplt (by rw [getD_set_nil]; exact matchesId_nil _)
      have H' : ∀ i, i < endIdx → matchesId (.short k) ((args.set p []).getD i []) = true →
          ∃ w2, w2 ≠ [] ∧ (args.set p []).getD i [] = '-' :: k :: '=' :: w2 := by
        intro i hi hm
        by_cases hip : p = i
        · subst hip
          rw [getD_set_nil, matchesId_nil] at hm
          exact absurd hm (by simp)
        · rw [getD_set_ne _ _ _ _ _ hip] at hm ⊢
          exact H i hi hm
      obtain ⟨a2, hloop, hblank⟩ :=
        ih (args.set p []) (p + 1) (value ++ [w]) H' (by omega) (by omega)
      refine ⟨a2, ?_, ?_⟩
      · have hcoll : collectEqShort k args j (endIdx - j) =
            w :: collectEqShort k (args.set p []) (p + 1) (endIdx - (p + 1)) := by
          rw [collectEqShort_skip k args p (endIdx - j) j hpge (by omega)
              (fun i hi1 hi2 => findOptionId_not_lt args endIdx (.short k) j i hi1 (by omega)),
            show j + (endIdx - j) - p = (endIdx - (p + 1)) + 1 by omega, collectEqShort_succ,
            if_pos hmatch, htok]
          congr 1
          exact collectEqShort_congr k args (args.set p []) (endIdx - (p + 1)) (p + 1)
            (fun i hi1 hi2 => (getD_set_ne args p i [] [] (by omega)).symm)
        simp only [containerLoop]
        rw [if_pos hbne, hext]
        simp only [bind, Except.bind]
        rw [hstep, hloop, hcoll]
        simp
      · intro i
        rcases hblank i with h | h
        · by_cases hip : p = i
          · subst hip
            rw [h, getD_set_nil]
            exact Or.inr rfl
          · rw [h, getD_set_ne _ _ _ _ _ hip]
            exact Or.inl rfl
        · exact Or.inr h

theorem getOptionByIdContainer_eqForm (k : Char) (args : List Tok) (v0 : List Tok)
    (endIdx : Nat)
    (H1 : ∀ i, i < endIdx → matchesId (.short k) (args.getD i []) = true →
      ∃ w, w ≠ [] ∧ args.getD i [] = '-' :: k :: '=' :: w)
    (hsome : findOptionId args endIdx (.short k) 0 ≠ endIdx) :
    ∃ a2, getOptionByIdContainer parseOptionValueStrList (fun _ => []) v0 args endIdx
        (.short k) = .ok (true, collectEqShort k args 0 endIdx, a2) ∧
      (∀ i, a2.getD i [] = args.getD i [] ∨ a2.getD i [] = []) := by
  obtain ⟨a2, hloop, hblank⟩ :=
    containerLoop_eqForm k endIdx (endIdx + 1) args 0 [] H1 (Nat.zero_le _) (by omega)
  refine ⟨a2, ?_, hblank⟩
  simp only [getOptionByIdContainer]
  rw [if_pos (show (findOptionId args endIdx (.short k) 0 != endIdx) = true by simpa using hsome),
    hloop]
  simp only [bind, Except.bind, pure, Except.pure]
  rw [show (findOptionId args endIdx (.short k) 0 != endIdx) = true by simpa using hsome]
  simp [show endIdx - 0 = endIdx by omega]

/-- C3 (amended): a container option supplied any number of times via its
short identifier in attached-equals form, interleaved with arbitrary other
tokens that match neither identifier, collects exactly those values in
left-to-right token order; with no occurrence and not required, the target
keeps its pre-call value. -/
theorem C3_container_in_order (k : Char) (l : Tok) (args : List Tok) (v0 : List Tok)
    (endIdx : Nat)
    (H1 : ∀ i, i < endIdx → matchesId (.short k) (args.getD i []) = true →
      ∃ w, w ≠ [] ∧ args.getD i [] = '-' :: k :: '=' :: w)
    (H2 : ∀ i, i < endIdx → matchesId (.long l) (args.getD i []) = false) :
    Except.map Prod.fst (getOptionStrList (fun _ => true) ⟨k, l, false⟩ v0 args endIdx) =
      .ok (if collectEqShort k args 0 endIdx = [] then v0
        else collectEqShort k args 0 endIdx) := by
  by_cases h0 : findOptionId args endIdx (.short k) 0 = endIdx
  · have hnone : ∀ i, i < endIdx → matchesId (.short k) (args.getD i []) = false :=
      fun i hi => findOptionId_not_lt args endIdx (.short k) 0 i (Nat.zero_le _) (by omega)
    have hshort := getOptionByIdContainer_none parseOptionValueStrList (fun _ => []) v0 args
      endIdx (.short k) hnone
    have hlong := getOptionByIdContainer_none parseOptionValueStrList (fun _ => []) v0 args
      endIdx (.long l) (fun i hi => H2 i hi)
    have hcoll : collectEqShort k args 0 endIdx = [] :=
      collectEqShort_nil_of_none k args 0 endIdx (fun i _ hi2 => hnone i (by omega))
    simp only [getOptionStrList, getOptionWith, hshort, hlong, bind, Except.bind]
    rw [hcoll]
    simp [Except.map, pure, Except.pure]
  · have h0lt : findOptionId args endIdx (.short k) 0 < endIdx := by
      have := findOptionId_le args endIdx (.short k) 0 (Nat.zero_le _)
      omega
    have hmatch0 : matchesId (.short k) (args.getD (findOptionId args endIdx (.short k) 0) [])
        = true := (findOptionId_found args endIdx (.short k) 0 (Nat.zero_le _) h0).2
    obtain ⟨a2, hshort, hblank⟩ := getOptionByIdContainer_eqForm k args v0 endIdx H1 h0
    have hlong := getOptionByIdContainer_none parseOptionValueStrList (fun _ => [])
      (collectEqShort k args 0 endIdx) a2 endIdx (.long l) (by
        intro i hi
        rcases hblank i with h | h
        · rw [h]
          exact H2 i hi
        · rw [h]
          exact matchesId_nil _)
    have hcoll : collectEqShort k args 0 endIdx ≠ [] :=
      collectEqShort_ne_nil k args endIdx 0 (findOptionId args endIdx (.short k) 0)
        (Nat.zero_le _) (by omega) hmatch0
    simp only [getOptionStrList, getOptionWith, hshort, hlong, bind, Except.bind]
    rw [if_neg hcoll]
    simp [Except.map, pure, Except.pure]

/-! ### The other extraction forms -/

theorem identifyAndRetrieve_attached {α : Type} (pv : α → Tok → α × OptionParseResult)
    (value : α) (args : List Tok) (endIdx p : Nat) (id : OptionId) (w : Tok)
    (hp : p ≠ endIdx) (htok : args.getD p [] = prependDash id ++ w) (hw : w ≠ [])
    (hne : w.getD 0 nulChar ≠ '=') :
    identifyAndRetrieveOptionValue pv value args endIdx p id =
      (throwOnInputError (pv value w).2).map
        fun _ => (true, (pv value w).1, args.set p [], p) := by
  have hbne : (p != endIdx) = true := by simpa using hp
  have hwpos : 0 < w.length := List.length_pos.mpr hw
  have hc1 : (prependDash id).length < (args.getD p []).length := by
    rw [htok, List.length_append]
    omega
  have hc2 : ¬ ((args.getD p []).getD (prependDash id).length nulChar == '=') = true := by
    rw [htok, List.getD_append_right _ _ _ _ (Nat.le_refl _), Nat.sub_self, beq_iff_eq]
    exact hne
  have hc4 : (args.getD p []).drop (prependDash id).length = w := by
    rw [htok, List.drop_left]
  rcases hpv : pv value w with ⟨v, res⟩
  simp only [identifyAndRetrieveOptionValue]
  rw [if_pos hbne, if_pos hc1, if_neg hc2, hc4, hpv]

theorem identifyAndRetrieve_separate {α : Type} (pv : α → Tok → α × OptionParseResult)
    (value : α) (args : List Tok) (endIdx p : Nat) (id : OptionId)
    (hp : p ≠ endIdx) (htok : args.getD p [] = prependDash id) (hnext : p + 1 ≠ endIdx) :
    identifyAndRetrieveOptionValue pv value args endIdx p id =
      (throwOnInputError (pv value ((args.set p []).getD (p + 1) [])).2).map
        fun _ => (true, (pv value ((args.set p []).getD (p + 1) [])).1,
          (args.set p []).set (p + 1) [], p + 1) := by
  have hbne : (p != endIdx) = true := by simpa using hp
  have hc1 : ¬ (prependDash id).length < (args.getD p []).length := by
    rw [htok]
    omega
  have hc2 : ¬ (p + 1 == endIdx) = true := by simpa using hnext
  rcases hpv : pv value ((args.set p []).getD (p + 1) []) with ⟨v, res⟩
  simp only [identifyAndRetrieveOptionValue]
  rw [if_neg hc1, if_neg hc2, hpv]
  rw [if_pos hbne]

theorem findOptionId_zero (args : List Tok) (endIdx : Nat) (id : OptionId)
    (h0 : 0 < endIdx) (hm : matchesId id (args.getD 0 []) = true) :
    findOptionId args endIdx id 0 = 0 := by
  have h1 := findOptionId_le_of_found args endIdx id 0 0 (Nat.le_refl _) h0 hm
  omega

theorem getOptionByIdScalar_eval {α : Type} (pv : α → Tok → α × OptionParseResult) (v0 : α)
    (args : List Tok) (endIdx : Nat) (id : OptionId) (b : Bool) (v : α) (a : List Tok)
    (it2 : Nat) (hne : findOptionId args endIdx id 0 ≠ endIdx)
    (hext : identifyAndRetrieveOptionValue pv v0 args endIdx
      (findOptionId args endIdx id 0) id = .ok (b, v, a, it2))
    (hagain : findOptionId a endIdx id it2 = endIdx) :
    getOptionByIdScalar pv v0 args endIdx id = .ok (true, v, a) := by
  have hbne : (findOptionId args endIdx id 0 != endIdx) = true := by simpa using hne
  simp only [getOptionByIdScalar]
  rw [if_pos hbne, hext]
  simp only [bind, Except.bind]
  rw [if_neg (by rw [hagain]; simp)]
  rw [hbne]
  rfl

theorem findOptionId_eq_end_of_blank (a : List Tok) (endIdx : Nat) (id : OptionId) (s : Nat)
    (hs : s ≤ endIdx) (h : ∀ i, i < endIdx → a.getD i [] = []) :
    findOptionId a endIdx id s = endIdx :=
  findOptionId_eq_end_of_none a endIdx id s hs
    (fun i _ h2 => by rw [h i h2]; exact matchesId_nil id)

/-- C2 (amended): for a declared scalar option with short identifier `k`
(not null, not a dash) and any value string that is non-empty, does not
begin with `=`, and is not the end-of-options token `--`, the forms
`-kV`, `-k V` and `-k=V` parse to identical target values. -/
theorem C2_value_form_equivalence (k : Char) (V : Tok) (v0 : Tok) (l : Tok) (req : Bool)
    (hk0 : k ≠ nulChar) (hkd : k ≠ '-') (hV : V ≠ []) (hVeq : V.getD 0 nulChar ≠ '=')
    (hVdd : V ≠ lit "--") :
    Except.map Prod.fst (getOptionStr (fun _ => true) ⟨k, l, req⟩ v0 ['-' :: k :: V]
        (endOfOptionsIdx ['-' :: k :: V])) = .ok V ∧
    Except.map Prod.fst (getOptionStr (fun _ => true) ⟨k, l, req⟩ v0 [['-', k], V]
        (endOfOptionsIdx [['-', k], V])) = .ok V ∧
    Except.map Prod.fst (getOptionStr (fun _ => true) ⟨k, l, req⟩ v0 ['-' :: k :: '=' :: V]
        (endOfOptionsIdx ['-' :: k :: '=' :: V])) = .ok V := by
  refine ⟨?_, ?_, ?_⟩
  · -- attached form -kV
    have hend : endOfOptionsIdx ['-' :: k :: V] = 1 := by
      unfold endOfOptionsIdx
      rw [List.findIdx_cons,
        show (('-' :: k :: V) == lit "--") = false from
          beq_eq_false_iff_ne.mpr (fun h => hkd (congrArg (fun t => t.getD 1 nulChar) h))]
      rfl
    rw [hend]
    have hm0 : matchesId (.short k) (['-' :: k :: V].getD 0 []) = true :=
      (matchesId_short_iff k _ hk0).mpr ⟨V, rfl⟩
    have hfind : findOptionId ['-' :: k :: V] 1 (.short k) 0 = 0 :=
      findOptionId_zero _ 1 _ (by omega) hm0
    have hext : identifyAndRetrieveOptionValue parseOptionValueStr v0 ['-' :: k :: V] 1
        (findOptionId ['-' :: k :: V] 1 (.short k) 0) (.short k) =
        .ok (true, V, [([] : Tok)], 0) := by
      rw [hfind,
        identifyAndRetrieve_attached parseOptionValueStr v0 ['-' :: k :: V] 1 0 (.short k) V
          (by omega) rfl hV hVeq]
      rfl
    have hshort := getOptionByIdScalar_eval parseOptionValueStr v0 ['-' :: k :: V] 1
      (.short k) true V [([] : Tok)] 0 (by omega) hext
      (findOptionId_eq_end_of_blank _ 1 _ 0 (by omega) (by intro i hi; interval_cases i; rfl))
    have hlong := getOptionByIdScalar_none parseOptionValueStr V [([] : Tok)] 1 (.long l)
      (by intro i hi; interval_cases i; exact matchesId_nil _)
    simp only [getOptionStr, getOptionWith, hshort, hlong, bind, Except.bind]
    simp [Except.map, pure, Except.pure]
  · -- separate form -k V
    have hend : endOfOptionsIdx [['-', k], V] = 2 := by
      unfold endOfOptionsIdx
      rw [List.findIdx_cons,
        show ((['-', k]) == lit "--") = false from
          beq_eq_false_iff_ne.mpr (fun h => hkd (congrArg (fun t => t.getD 1 nulChar) h)),
        List.findIdx_cons, show (V == lit "--") = false from beq_eq_false_iff_ne.mpr hVdd]
      rfl
    rw [hend]
    have hm0 : matchesId (.short k) ([['-', k], V].getD 0 []) = true :=
      (matchesId_short_iff k _ hk0).mpr ⟨[], rfl⟩
    have hfind : findOptionId [['-', k], V] 2 (.short k) 0 = 0 :=
      findOptionId_zero _ 2 _ (by omega) hm0
    have hext : identifyAndRetrieveOptionValue parseOptionValueStr v0 [['-', k], V] 2
        (findOptionId [['-', k], V] 2 (.short k) 0) (.short k) =
        .ok (true, V, [([] : Tok), ([] : Tok)], 1) := by
      rw [hfind,
        identifyAndRetrieve_separate parseOptionValueStr v0 [['-', k], V] 2 0 (.short k)
          (by omega) rfl (by omega)]
      rfl
    have hshort := getOptionByIdScalar_eval parseOptionValueStr v0 [['-', k], V] 2
      (.short k) true V [([] : Tok), ([] : Tok)] 1 (by omega) hext
      (findOptionId_eq_end_of_blank _ 2 _ 1 (by omega)
        (by intro i hi; interval_cases i <;> rfl))
    have hlong := getOptionByIdScalar_none parseOptionValueStr V
      [([] : Tok), ([] : Tok)] 2 (.long l)
      (by intro i hi; interval_cases i <;> exact matchesId_nil _)
    simp only [getOptionStr, getOptionWith, hshort, hlong, bind, Except.bind]
    simp [Except.map, pure, Except.pure]
  · -- attached equals form -k=V
    have hend : endOfOptionsIdx ['-' :: k :: '=' :: V] = 1 := by
      unfold endOfOptionsIdx
      rw [List.findIdx_cons,
        show (('-' :: k :: '=' :: V) == lit "--") = false from
          beq_eq_false_iff_ne.mpr (fun h => hkd (congrArg (fun t => t.getD 1 nulChar) h))]
      rfl
    rw [hend]
    have hm0 : matchesId (.short k) (['-' :: k :: '=' :: V].getD 0 []) = true :=
      (matchesId_short_iff k _ hk0).mpr ⟨'=' :: V, rfl⟩
    have hfind : findOptionId ['-' :: k :: '=' :: V] 1 (.short k) 0 = 0 :=
      findOptionId_zero _ 1 _ (by omega) hm0
    have hext : identifyAndRetrieveOptionValue parseOptionValueStr v0 ['-' :: k :: '=' :: V] 1
        (findOptionId ['-' :: k :: '=' :: V] 1 (.short k) 0) (.short k) =
        .ok (true, V, [([] : Tok)], 0) := by
      rw [hfind,
        identifyAndRetrieve_eqForm parseOptionValueStr v0 ['-' :: k :: '=' :: V] 1 0 (.short k) V
          (by omega) rfl hV]
      rfl
    have hshort := getOptionByIdScalar_eval parseOptionValueStr v0 ['-' :: k :: '=' :: V] 1
      (.short k) true V [([] : Tok)] 0 (by omega) hext
      (findOptionId_eq_end_of_blank _ 1 _ 0 (by omega) (by intro i hi; interval_cases i; rfl))
    have hlong := getOptionByIdScalar_none parseOptionValueStr V [([] : Tok)] 1 (.long l)
      (by intro i hi; interval_cases i; exact matchesId_nil _)
    simp only [getOptionStr, getOptionWith, hshort, hlong, bind, Except.bind]
    simp [Except.map, pure, Except.pure]

/-- C5: a scalar option supplied via both its short and long identifier
fails with option_declared_multiple_times regardless of the two values,
and so does a second occurrence of the same identifier form. -/
theorem C5_scalar_multiple_times (k : Char) (l : Tok) (args : List Tok) (v0 : Tok)
    (endIdx : Nat) (req : Bool) (hkd : k ≠ '-')
    (H1 : ∀ i, i < endIdx → matchesId (.short k) (args.getD i []) = true →
      ∃ w, w ≠ [] ∧ args.getD i [] = '-' :: k :: '=' :: w)
    (H2 : ∀ i, i < endIdx → matchesId (.long l) (args.getD i []) = true →
      ∃ w, w ≠ [] ∧ args.getD i [] = ('-' :: '-' :: l) ++ '=' :: w) :
    ((∃ i, i < endIdx ∧ matchesId (.short k) (args.getD i []) = true) →
      (∃ j, j < endIdx ∧ matchesId (.long l) (args.getD j []) = true) →
      getOptionStr (fun _ => true) ⟨k, l, req⟩ v0 args endIdx =
        .error .optionDeclaredMultipleTimes) ∧
    ((∃ i j, i < j ∧ j < endIdx ∧ matchesId (.short k) (args.getD i []) = true ∧
        matchesId (.short k) (args.getD j []) = true) →
      getOptionStr (fun _ => true) ⟨k, l, req⟩ v0 args endIdx =
        .error .optionDeclaredMultipleTimes) := by
  constructor
  · rintro ⟨i0, hi0, hm0⟩ ⟨j0, hj0, hmj0⟩
    have hk0 : k ≠ nulChar := by
      intro h
      rw [h] at hm0
      simp [matchesId] at hm0
    rcases getOptionByIdScalar_eqForm args endIdx (.short k) v0 H1 ⟨i0, hi0, hm0⟩ with
      herr | ⟨p, w, hp, htokp, hwp, huniqS, hokS⟩
    · simp only [getOptionStr, getOptionWith, herr, bind, Except.bind]
    · have hmp : matchesId (.short k) (args.getD p []) = true :=
        (matchesId_short_iff k _ hk0).mpr ⟨'=' :: w, htokp⟩
      have hjp : j0 ≠ p := by
        intro h
        rw [h] at hmj0
        rw [matchesId_short_of_long k l _ hkd hmj0] at hmp
        exact absurd hmp (by simp)
      have H2' : ∀ i, i < endIdx → matchesId (.long l) ((args.set p []).getD i []) = true →
          ∃ w2, w2 ≠ [] ∧ (args.set p []).getD i [] = prependDash (.long l) ++ '=' :: w2 := by
        intro i hi hm
        by_cases hip : p = i
        · subst hip
          rw [getD_set_nil, matchesId_nil] at hm
          exact absurd hm (by simp)
        · rw [getD_set_ne _ _ _ _ _ hip] at hm ⊢
          exact H2 i hi hm
      have hexL : ∃ j, j < endIdx ∧ matchesId (.long l) ((args.set p []).getD j []) = true :=
        ⟨j0, hj0, by rwa [getD_set_ne _ _ _ _ _ (fun h => hjp h.symm)]⟩
      rcases getOptionByIdScalar_eqForm (args.set p []) endIdx (.long l) w H2' hexL with
        herrL | ⟨q, w2, hq, htokq, hwq, huniqL, hokL⟩
      · simp only [getOptionStr, getOptionWith, hokS, herrL, bind, Except.bind]
      · simp only [getOptionStr, getOptionWith, hokS, hokL, bind, Except.bind]
        simp
  · rintro ⟨i0, j0, hij, hj0, hmi0, hmj0⟩
    rcases getOptionByIdScalar_eqForm args endIdx (.short k) v0 H1 ⟨i0, by omega, hmi0⟩ with
      herr | ⟨p, w, hp, htokp, hwp, huniqS, hokS⟩
    · simp only [getOptionStr, getOptionWith, herr, bind, Except.bind]
    · by_cases hip : i0 = p
      · have hj : j0 ≠ p := by omega
        rw [huniqS j0 hj0 hj] at hmj0
        exact absurd hmj0 (by simp)
      · rw [huniqS i0 (by omega) hip] at hmi0
        exact absurd hmi0 (by simp)

theorem throwMap_ne_tooFew {β : Type} (res : OptionParseResult) (f : Unit → β) :
    ¬ (throwOnInputError res).map f = .error .tooFewArguments := by
  cases res <;> simp [throwOnInputError, Except.map]

/-- C8: extraction of the value of a matched identifier occurrence fails
with too_few_arguments exactly for the attached-equals form with empty
remainder and for the separate form whose next position is the
end-of-options marker. -/
theorem C8_too_few_exactly (α : Type) (pv : α → Tok → α × OptionParseResult) (value : α)
    (args : List Tok) (endIdx it : Nat) (id : OptionId) (t : Tok)
    (hit : it ≠ endIdx) (htok : args.getD it [] = prependDash id ++ t) :
    identifyAndRetrieveOptionValue pv value args endIdx it id = .error .tooFewArguments ↔
      (t = ['='] ∨ (t = [] ∧ it + 1 = endIdx)) := by
  rcases t with _ | ⟨c, rest⟩
  · rw [List.append_nil] at htok
    constructor
    · intro hL
      refine Or.inr ⟨rfl, ?_⟩
      by_contra hne
      rw [identifyAndRetrieve_separate pv value args endIdx it id hit htok hne] at hL
      exact throwMap_ne_tooFew _ _ hL
    · rintro (h | ⟨-, hnext⟩)
      · exact absurd h (by simp)
      · have hbne : (it != endIdx) = true := by simpa using hit
        have hc1 : ¬ (prependDash id).length < (args.getD it []).length := by
          rw [htok]
          omega
        have hc2 : (it + 1 == endIdx) = true := by simpa using hnext
        simp only [identifyAndRetrieveOptionValue]
        rw [if_pos hbne, if_neg hc1, if_pos hc2]
  · by_cases hc : c = '='
    · subst hc
      rcases rest with _ | ⟨c2, rest2⟩
      · constructor
        · intro _
          exact Or.inl rfl
        · intro _
          have hbne : (it != endIdx) = true := by simpa using hit
          have hc1 : (prependDash id).length < (args.getD it []).length := by
            rw [htok, List.length_append]
            simp
          have hc2 : ((args.getD it []).getD (prependDash id).length nulChar == '=') = true := by
            rw [htok, List.getD_append_right _ _ _ _ (Nat.le_refl _), Nat.sub_self,
              List.getD_cons_zero]
            exact beq_self_eq_true _
          have hc3 : ((args.getD it []).length == (prependDash id).length + 1) = true := by
            rw [htok, List.length_append]
            exact beq_self_eq_true _
          simp only [identifyAndRetrieveOptionValue]
          rw [if_pos hbne, if_pos hc1, if_pos hc2, if_pos hc3]
      · rw [identifyAndRetrieve_eqForm pv value args endIdx it id (c2 :: rest2) hit htok
          (by simp)]
        constructor
        · intro hL
          exact absurd hL (throwMap_ne_tooFew _ _)
        · rintro (h | ⟨h, -⟩) <;> simp at h
    · rw [identifyAndRetrieve_attached pv value args endIdx it id (c :: rest) hit htok
        (by simp) (by simpa using hc)]
      constructor
      · intro hL
        exact absurd hL (throwMap_ne_tooFew _ _)
      · rintro (h | ⟨h, -⟩)
        · rw [List.cons.injEq] at h
          exact absurd h.1 hc
        · simp at h

/-! ### Positional retrieval skips blanked and empty tokens -/

theorem findIdx_eq_findFromAux (p : Tok → Bool) (args : List Tok) :
    args.findIdx p = findFromAux p args 0 args.length := by
  induction args with
  | nil => rfl
  | cons a l ih =>
    have hshift : findFromAux p (a :: l) (0 + 1) l.length = findFromAux p l 0 l.length + 1 :=
      findFromAux_shift p a l 0 l.length
    rw [List.findIdx_cons]
    by_cases hp : p a = true
    · rw [hp, show (a :: l).length = l.length + 1 from rfl, findFromAux_succ,
        List.getD_cons_zero, if_pos hp]
      rfl
    · have hp' : p a = false := (Bool.not_eq_true _).mp hp
      rw [hp', show (a :: l).length = l.length + 1 from rfl, findFromAux_succ,
        List.getD_cons_zero, if_neg hp, hshift, ← ih]
      rfl

theorem filter_drop_nil_of_none (args : List Tok) :
    ∀ fuel j, args.length ≤ j + fuel →
      (∀ i, j ≤ i → i < args.length → (!(args.getD i []).isEmpty) = false) →
      (args.drop j).filter (fun s => !s.isEmpty) = [] := by
  intro fuel
  induction fuel with
  | zero =>
    intro j h1 _
    rw [List.drop_eq_nil_of_le (by omega)]
    rfl
  | succ n ih =>
    intro j h1 h
    by_cases hj : j < args.length
    · rw [List.drop_eq_getElem_cons hj, List.filter_cons, if_neg (by
        have hh := h j (Nat.le_refl _) hj
        rw [List.getD_eq_getElem args [] hj] at hh
        simp [hh])]
      exact ih (j + 1) (by omega) (fun i hi1 hi2 => h i (by omega) hi2)
    · rw [List.drop_eq_nil_of_le (by omega)]
      rfl

theorem filter_drop_skip (args : List Tok) :
    ∀ fuel j q, j ≤ q → q ≤ j + fuel →
      (∀ i, j ≤ i → i < q → (!(args.getD i []).isEmpty) = false) →
      (args.drop j).filter (fun s => !s.isEmpty) =
        (args.drop q).filter (fun s => !s.isEmpty) := by
  intro fuel
  induction fuel with
  | zero =>
    intro j q h1 h2 _
    rw [show q = j by omega]
  | succ n ih =>
    intro j q h1 h2 h
    rcases Nat.eq_or_lt_of_le h1 with rfl | hlt
    · rfl
    · by_cases hj : j < args.length
      · rw [List.drop_eq_getElem_cons hj, List.filter_cons, if_neg (by
          have hh := h j (Nat.le_refl _) hlt
          rw [List.getD_eq_getElem args [] hj] at hh
          simp [hh])]
        exact ih (j + 1) q hlt (by omega) (fun i hi1 hi2 => h i (by omega) hi2)
      · rw [List.drop_eq_nil_of_le (by omega), List.drop_eq_nil_of_le (by omega)]

theorem filter_drop_decompose (args : List Tok) (q : Nat) (hq : q < args.length)
    (hne : (!(args.getD q []).isEmpty) = true) :
    (args.drop q).filter (fun s => !s.isEmpty) =
      args.getD q [] :: (args.drop (q + 1)).filter (fun s => !s.isEmpty) := by
  rw [List.drop_eq_getElem_cons hq, List.filter_cons, if_pos (by
    rwa [List.getD_eq_getElem args [] hq] at hne)]
  rw [List.getD_eq_getElem args [] hq]

theorem map_fst_ok {ε : Type} {α β : Type} (e : Except ε (α × β)) (x : α)
    (h : Except.map Prod.fst e = .ok x) : ∃ y, e = .ok (x, y) := by
  cases e with
  | ok v =>
    refine ⟨v.2, ?_⟩
    simp only [Except.map] at h
    injection h with h
    rw [← h]
  | error err => simp [Except.map] at h

theorem positionalLoop_filter :
    ∀ fuel (args : List Tok) (j : Nat) (value : List Tok), j ≤ args.length →
      args.length - j < fuel →
      Except.map Prod.fst (positionalLoop parseOptionValueStrList fuel value args
          (findFromAux (fun s => !s.isEmpty) args j (args.length - j))) =
        .ok (value ++ (args.drop j).filter (fun s => !s.isEmpty)) := by
  intro fuel
  induction fuel with
  | zero =>
    intro args j value h1 h2
    omega
  | succ n ih =>
    intro args j value h1 h2
    set q := findFromAux (fun s => !s.isEmpty) args j (args.length - j) with hqdef
    have hqle : q ≤ args.length := by
      have := findFromAux_le (fun s => !s.isEmpty) args j (args.length - j)
      omega
    have hqge : j ≤ q := findFromAux_ge _ _ _ _
    by_cases hq : q = args.length
    · have hnone : ∀ i, j ≤ i → i < args.length → (!(args.getD i []).isEmpty) = false :=
        fun i hi1 hi2 =>
          findFromAux_not_lt (fun s => !s.isEmpty) args j (args.length - j) i hi1 (by omega)
      rw [hq]
      simp only [positionalLoop]
      rw [if_neg (by simp), filter_drop_nil_of_none args args.length j (by omega) hnone,
        List.append_nil]
      rfl
    · have hqlt : q < args.length := by omega
      have hqne : (!(args.getD q []).isEmpty) = true :=
        findFromAux_found (fun s => !s.isEmpty) args j (args.length - j) (by omega)
      simp only [positionalLoop]
      rw [if_pos (by simpa using hq)]
      have hpv : parseOptionValueStrList value (args.getD q []) =
          (value ++ [args.getD q []], .success) := rfl
      rw [hpv]
      simp only [throwOnInputError, Except.bind]
      have hlen : (args.set q []).length = args.length := List.length_set _ _ _
      have hblanked : (!((args.set q []).getD q []).isEmpty) = false := by
        rw [getD_set_nil]
        rfl
      have hstep : findFromAux (fun s => !s.isEmpty) (args.set q [])
          q ((args.set q []).length - q) =
          findFromAux (fun s => !s.isEmpty) (args.set q [])
            (q + 1) ((args.set q []).length - (q + 1)) := by
        rw [hlen, show args.length - q = (args.length - (q + 1)) + 1 by omega,
          findFromAux_succ, if_neg ((Bool.not_eq_true _).mpr hblanked)]
      rw [hstep]
      have hdropset : (args.set q []).drop (q + 1) = args.drop (q + 1) := by
        rw [List.drop_set, if_pos (by omega)]
      rw [ih (args.set q []) (q + 1) (value ++ [args.getD q []])
          (by rw [hlen]; omega) (by rw [hlen]; omega), hdropset,
        filter_drop_skip args (args.length - j) j q hqge (by omega)
          (fun i hi1 hi2 =>
            findFromAux_not_lt (fun s => !s.isEmpty) args j (args.length - j) i hi1 (by omega)),
        filter_drop_decompose args q hqlt hqne]
      simp

/-- C10: positional retrieval consumes only non-empty tokens: a literal
empty-string argument is skipped exactly like a consumed token, the scalar
target receives the first non-empty token, the container target receives
all remaining non-empty tokens, and a buffer with no non-empty token fails
with too_few_arguments. -/
theorem C10_positional_skips_empties (args : List Tok) (v0 : Tok) (l0 : List Tok) :
    (Except.map Prod.fst (getPositionalScalar parseOptionValueStr (fun _ => true) v0 args) =
      match args.filter (fun s => !s.isEmpty) with
      | [] => .error .tooFewArguments
      | v :: _ => .ok v) ∧
    (Except.map Prod.fst (getPositionalContainer parseOptionValueStrList (fun _ => [])
        (fun _ => true) l0 args) =
      match args.filter (fun s => !s.isEmpty) with
      | [] => .error .tooFewArguments
      | _ :: _ => .ok (args.filter (fun s => !s.isEmpty))) := by
  rcases hfilter : args.filter (fun s => !s.isEmpty) with _ | ⟨v, rest⟩
  · have hall : ∀ x ∈ args, (fun s : Tok => !s.isEmpty) x = false := by
      intro x hx
      have := List.filter_eq_nil_iff.mp hfilter x hx
      simpa using this
    have hidx : args.findIdx (fun s => !s.isEmpty) = args.length :=
      List.findIdx_eq_length.mpr hall
    constructor
    · simp only [getPositionalScalar, hidx]
      rw [if_pos (beq_self_eq_true _), hfilter]
      rfl
    · simp only [getPositionalContainer, hidx]
      rw [if_pos (beq_self_eq_true _), hfilter]
      rfl
  · have hvmem : v ∈ args.filter (fun s => !s.isEmpty) := by
      rw [hfilter]
      exact List.mem_cons_self _ _
    have hv2 := List.mem_filter.mp hvmem
    have hlt : args.findIdx (fun s => !s.isEmpty) < args.length :=
      List.findIdx_lt_length.mpr ⟨v, hv2.1, hv2.2⟩
    have hbridge := findIdx_eq_findFromAux (fun s => !s.isEmpty) args
    have hne0 :
        (!(args.getD (args.findIdx (fun s => !s.isEmpty)) []).isEmpty) = true := by
      rw [hbridge]
      exact findFromAux_found (fun s => !s.isEmpty) args 0 args.length
        (by rw [← hbridge]; omega)
    have hnotlt : ∀ i, i < args.findIdx (fun s => !s.isEmpty) →
        (!(args.getD i []).isEmpty) = false := by
      intro i hi
      apply findFromAux_not_lt (fun s => !s.isEmpty) args 0 args.length i (Nat.zero_le _)
      rw [← hbridge]
      omega
    have hdecomp : args.filter (fun s => !s.isEmpty) =
        args.getD (args.findIdx (fun s => !s.isEmpty)) [] ::
          (args.drop (args.findIdx (fun s => !s.isEmpty) + 1)).filter
            (fun s => !s.isEmpty) := by
      have h1 : args.filter (fun s => !s.isEmpty) =
          (args.drop 0).filter (fun s => !s.isEmpty) := by rw [List.drop_zero]
      rw [h1, filter_drop_skip args args.length 0 (args.findIdx (fun s => !s.isEmpty))
          (Nat.zero_le _) (by omega) (fun i _ hi2 => hnotlt i hi2),
        filter_drop_decompose args (args.findIdx (fun s => !s.isEmpty)) hlt hne0]
    have hvhead : v = args.getD (args.findIdx (fun s => !s.isEmpty)) [] := by
      rw [hfilter] at hdecomp
      injection hdecomp with h1 h2
    have hne_len : ¬ ((args.findIdx (fun s => !s.isEmpty) == args.length) = true) := by
      rw [beq_iff_eq]
      omega
    constructor
    · simp only [getPositionalScalar]
      rw [if_neg hne_len]
      rw [show parseOptionValueStr v0
          (args.getD (args.findIdx (fun s => !s.isEmpty)) []) =
          (args.getD (args.findIdx (fun s => !s.isEmpty)) [], .success) from rfl]
      simp only [throwOnInputError, Except.bind]
      rw [if_pos (by trivial), hfilter, ← hvhead]
      rfl
    · simp only [getPositionalContainer]
      rw [if_neg hne_len]
      have hloop := positionalLoop_filter (args.length + 1) args 0 [] (Nat.zero_le _)
        (by omega)
      rw [Nat.sub_zero, List.nil_append, List.drop_zero] at hloop
      obtain ⟨a2, ha2⟩ := map_fst_ok _ _ hloop
      rw [hbridge, ha2]
      simp only [bind, Except.bind]
      rw [if_pos (by trivial), hfilter]
      rfl

/-! ### Tokens at or beyond the end-of-options position -/

theorem containerLoop_preserves {α : Type} (pv : α → Tok → α × OptionParseResult)
    (endIdx : Nat) (id : OptionId) :
    ∀ fuel (value : α) (args : List Tok) (it : Nat) (out : α × List Tok), it ≤ endIdx →
      containerLoop pv endIdx id fuel value args it = .ok out →
      ∀ i, endIdx ≤ i → out.2.getD i [] = args.getD i [] := by
  intro fuel
  induction fuel with
  | zero =>
    intro value args it out hle hok i hi
    simp only [containerLoop, pure, Except.pure] at hok
    injection hok with h
    rw [← h]
  | succ n ih =>
    intro value args it out hle hok i hi
    simp only [containerLoop] at hok
    by_cases hit : it = endIdx
    · rw [if_neg (by simp [hit])] at hok
      simp only [pure, Except.pure] at hok
      injection hok with h
      rw [← h]
    · rw [if_pos (by simpa using hit)] at hok
      cases hiden : identifyAndRetrieveOptionValue pv value args endIdx it id with
      | error e =>
        rw [hiden] at hok
        simp [bind, Except.bind] at hok
      | ok r =>
        rw [hiden] at hok
        simp only [bind, Except.bind] at hok
        obtain ⟨b, v, a, it2⟩ := r
        have hprops := identifyAndRetrieve_ok pv value args endIdx it id (b, v, a, it2)
          (by omega) hiden
        have hnext_le : findOptionId a endIdx id it2 ≤ endIdx :=
          findOptionId_le a endIdx id it2 (by
            have h2 : it2 < endIdx := hprops.2.1
            omega)
        have hrec := ih v a (findOptionId a endIdx id it2) out hnext_le hok i hi
        rw [hrec]
        exact hprops.2.2.2.1 i hi

theorem getOptionByIdScalar_preserves {α : Type} (pv : α → Tok → α × OptionParseResult)
    (v0 : α) (args : List Tok) (endIdx : Nat) (id : OptionId) (out : Bool × α × List Tok)
    (hok : getOptionByIdScalar pv v0 args endIdx id = .ok out) :
    ∀ i, endIdx ≤ i → out.2.2.getD i [] = args.getD i [] := by
  intro i hi
  simp only [getOptionByIdScalar] at hok
  by_cases hfind : findOptionId args endIdx id 0 = endIdx
  · rw [if_neg (by simp [hfind])] at hok
    simp only [bind, Except.bind, pure, Except.pure] at hok
    rw [if_neg (by rw [hfind, findOptionId_self]; simp)] at hok
    injection hok with h
    rw [← h]
  · have hlt : findOptionId args endIdx id 0 < endIdx := by
      have := findOptionId_le args endIdx id 0 (Nat.zero_le _)
      omega
    rw [if_pos (by simpa using hfind)] at hok
    cases hiden : identifyAndRetrieveOptionValue pv v0 args endIdx
        (findOptionId args endIdx id 0) id with
    | error e =>
      rw [hiden] at hok
      simp [bind, Except.bind] at hok
    | ok r =>
      rw [hiden] at hok
      simp only [bind, Except.bind] at hok
      obtain ⟨b, v, a, it2⟩ := r
      have hprops := identifyAndRetrieve_ok pv v0 args endIdx
        (findOptionId args endIdx id 0) id (b, v, a, it2) hlt hiden
      by_cases hagain : findOptionId a endIdx id it2 = endIdx
      · rw [if_neg (by rw [hagain]; simp)] at hok
        simp only [pure, Except.pure] at hok
        injection hok with h
        rw [← h]
        exact hprops.2.2.2.1 i hi
      · rw [if_pos (by simpa using hagain)] at hok
        simp at hok

theorem getOptionByIdContainer_preserves {α : Type} (pv : α → Tok → α × OptionParseResult)
    (clear : α → α) (v0 : α) (args : List Tok) (endIdx : Nat) (id : OptionId)
    (out : Bool × α × List Tok)
    (hok : getOptionByIdContainer pv clear v0 args endIdx id = .ok out) :
    ∀ i, endIdx ≤ i → out.2.2.getD i [] = args.getD i [] := by
  intro i hi
  simp only [getOptionByIdContainer] at hok
  cases hloop : containerLoop pv endIdx id (endIdx + 1)
      (if (findOptionId args endIdx id 0 != endIdx) = true then clear v0 else v0) args
      (findOptionId args endIdx id 0) with
  | error e =>
    rw [hloop] at hok
    simp [bind, Except.bind] at hok
  | ok r =>
    rw [hloop] at hok
    simp only [bind, Except.bind, pure, Except.pure] at hok
    injection hok with h
    have hpres := containerLoop_preserves pv endIdx id (endIdx + 1) _ args
      (findOptionId args endIdx id 0) r
      (findOptionId_le args endIdx id 0 (Nat.zero_le _)) hloop i hi
    rw [← h]
    exact hpres

theorem flagIsSetLong_preserves (args : List Tok) (endIdx : Nat) (longId : Tok) (i : Nat)
    (hi : endIdx ≤ i) :
    ((flagIsSetLong args endIdx longId).2).getD i [] = args.getD i [] := by
  unfold flagIsSetLong
  by_cases h : findFromAux (fun a => a == prependDash (.long longId)) args 0 endIdx = endIdx
  · rw [h]
    simp
  · have hle := findFromAux_le (fun a => a == prependDash (.long longId)) args 0 endIdx
    rw [if_pos (by simpa using h)]
    exact getD_set_ne _ _ _ _ _ (by omega)

/-- C4 (amended): option retrieval by identifier (scalar and container) and
long-flag retrieval leave every token at or beyond the end-of-options
position unchanged; grouped-short-flag retrieval does not obey this bound
(see the counterexample). -/
theorem C4_marker_respected :
    (∀ (α : Type) (pv : α → Tok → α × OptionParseResult) (v0 : α) (args : List Tok)
      (endIdx : Nat) (id : OptionId) (out : Bool × α × List Tok),
      getOptionByIdScalar pv v0 args endIdx id = .ok out →
      ∀ i, endIdx ≤ i → out.2.2.getD i [] = args.getD i []) ∧
    (∀ (α : Type) (pv : α → Tok → α × OptionParseResult) (clear : α → α) (v0 : α)
      (args : List Tok) (endIdx : Nat) (id : OptionId) (out : Bool × α × List Tok),
      getOptionByIdContainer pv clear v0 args endIdx id = .ok out →
      ∀ i, endIdx ≤ i → out.2.2.getD i [] = args.getD i []) ∧
    (∀ (args : List Tok) (endIdx : Nat) (longId : Tok) (i : Nat), endIdx ≤ i →
      ((flagIsSetLong args endIdx longId).2).getD i [] = args.getD i []) :=
  ⟨fun _ pv v0 args endIdx id out hok => getOptionByIdScalar_preserves pv v0 args endIdx id
      out hok,
    fun _ pv clear v0 args endIdx id out hok => getOptionByIdContainer_preserves pv clear v0
      args endIdx id out hok,
    flagIsSetLong_preserves⟩

/-! ### Grouped short flags and the unknown-identifier check -/

theorem flagIsSetChar_found (c : Char) :
    ∀ (args : List Tok) (i : Nat), i < args.length →
      (args.getD i []).getD 0 nulChar = '-' → 1 < (args.getD i []).length →
      (args.getD i []).getD 1 nulChar ≠ '-' → c ∈ args.getD i [] →
      (flagIsSetChar c args).1 = true := by
  intro args
  induction args with
  | nil =>
    intro i hi
    simp at hi
  | cons a rest ih =>
    intro i hi h0 h1 h2 hc
    simp only [flagIsSetChar]
    by_cases hgroup : a.getD 0 nulChar = '-' ∧ 1 < a.length ∧ a.getD 1 nulChar ≠ '-'
    · rw [if_pos hgroup]
      by_cases hpos : (a.findIdx (fun x => x == c) != a.length) = true
      · rw [if_pos hpos]
      · rw [if_neg hpos]
        rcases hrec : flagIsSetChar c rest with ⟨b, rest1⟩
        cases i with
        | zero =>
          exfalso
          apply hpos
          have hfound : a.findIdx (fun x => x == c) < a.length :=
            List.findIdx_lt_length.mpr ⟨c, by simpa using hc, beq_self_eq_true c⟩
          simpa using Nat.ne_of_lt hfound
        | succ j =>
          have := ih j (by simpa using hi) (by simpa using h0) (by simpa using h1)
            (by simpa using h2) (by simpa using hc)
          rw [hrec] at this
          simpa using this
    · rw [if_neg hgroup]
      rcases hrec : flagIsSetChar c rest with ⟨b, rest1⟩
      cases i with
      | zero => exact absurd ⟨h0, h1, h2⟩ hgroup
      | succ j =>
        have := ih j (by simpa using hi) (by simpa using h0) (by simpa using h1)
          (by simpa using h2) (by simpa using hc)
        rw [hrec] at this
        simpa using this

theorem flagIsSetChar_preserves_dashdash (c : Char) :
    ∀ (args : List Tok) (j : Nat), (args.getD j []).getD 1 nulChar = '-' →
      ((flagIsSetChar c args).2).getD j [] = args.getD j [] := by
  intro args
  induction args with
  | nil =>
    intro j _
    rfl
  | cons a rest ih =>
    intro j hj
    simp only [flagIsSetChar]
    by_cases hgroup : a.getD 0 nulChar = '-' ∧ 1 < a.length ∧ a.getD 1 nulChar ≠ '-'
    · rw [if_pos hgroup]
      by_cases hpos : (a.findIdx (fun x => x == c) != a.length) = true
      · rw [if_pos hpos]
        cases j with
        | zero => exact absurd (by simpa using hj) hgroup.2.2
        | succ m => simp
      · rw [if_neg hpos]
        rcases hrec : flagIsSetChar c rest with ⟨b, rest1⟩
        cases j with
        | zero => simp
        | succ m =>
          have := ih m (by simpa using hj)
          rw [hrec] at this
          simpa using this
    · rw [if_neg hgroup]
      rcases hrec : flagIsSetChar c rest with ⟨b, rest1⟩
      cases j with
      | zero => simp
      | succ m =>
        have := ih m (by simpa using hj)
        rw [hrec] at this
        simpa using this

theorem checkTokens_error_of_bad :
    ∀ (toks : List Tok), (∃ t ∈ toks, t ≠ [] ∧ t.getD 0 nulChar = '-' ∧ t ≠ ['-']) →
      checkTokens toks = .error .unknownOption := by
  intro toks
  induction toks with
  | nil =>
    rintro ⟨t, ht, -⟩
    simp at ht
  | cons a rest ih =>
    rintro ⟨t, ht, h1, h2, h3⟩
    simp only [checkTokens]
    by_cases hbad : (!a.isEmpty && (a.getD 0 nulChar == '-')) = true
    · rw [if_pos hbad]
      by_cases haa : (a == ['-']) = true
      · rw [if_pos haa]
        apply ih
        rcases List.mem_cons.mp ht with rfl | hmem
        · exact absurd (beq_iff_eq.mp haa) h3
        · exact ⟨t, hmem, h1, h2, h3⟩
      · rw [if_neg haa]
        split
        · rfl
        · rfl
    · rw [if_neg hbad]
      apply ih
      rcases List.mem_cons.mp ht with rfl | hmem
      · exfalso
        apply hbad
        rcases t with _ | ⟨x, xs⟩
        · exact absurd rfl h1
        · simp only [List.getD_cons_zero] at h2
          simp [h2]
      · exact ⟨t, hmem, h1, h2, h3⟩

/-! ### The deferred-call lists of the orchestrator -/

theorem runCalls_probes (ms : List Tok) :
    ∀ (args : List Tok) (endIdx : Nat) (c : Nat) (l : List Tok),
      runCalls (ms.map probeOp) ⟨args, endIdx, [.vTokList l], c⟩ =
        .ok ⟨args, endIdx, [.vTokList (l ++ ms)], c⟩ := by
  induction ms with
  | nil =>
    intro args endIdx c l
    simp [runCalls, List.foldlM, pure, Except.pure]
  | cons m ms ih =>
    intro args endIdx c l
    simp only [List.map_cons, runCalls, List.foldlM_cons]
    rw [show probeOp m ⟨args, endIdx, [.vTokList l], c⟩ =
      .ok ⟨args, endIdx, [.vTokList (l ++ [m])], c⟩ from rfl]
    simp only [bind, Except.bind]
    have := ih args endIdx c (l ++ [m])
    simp only [runCalls] at this
    rw [this, List.append_assoc]
    rfl

theorem runCalls_fail (e : ParserError) (post : List Op) :
    ∀ (pre : List Op) (s s' : St), runCalls pre s = .ok s' →
      runCalls (pre ++ failOp e :: post) s = .error e := by
  intro pre
  induction pre with
  | nil =>
    intro s s' _
    rfl
  | cons f fs ih =>
    intro s s' hok
    simp only [runCalls, List.cons_append, List.foldlM_cons] at hok ⊢
    cases hf : f s with
    | error e2 =>
      rw [hf] at hok
      have hok2 : (Except.error e2 : Except ParserError St) = Except.ok s' := hok
      simp at hok2
    | ok s1 =>
      rw [hf] at hok
      exact ih s1 s' hok

/-- C1: the orchestrator runs the registered option calls, then the flag
calls, then the unknown-identifier check, then the end-marker blanking,
then the positional calls, then the leftover check; every registered call
runs exactly once in declaration order (witnessed by the trace collected by
the probe calls), and an error raised in any phase aborts the parse with no
later call or phase executed, whatever the later calls are. -/
theorem C1_phase_order (oms fms pms : List Tok) :
    (parse (oms.map probeOp) (fms.map probeOp) (pms.map probeOp)
        ⟨[], 0, [.vTokList []], 0⟩ =
      .ok ⟨[], 0, [.vTokList (oms ++ fms ++ pms)], 0⟩) ∧
    (∀ (e : ParserError) (rest fcs pcs : List Op),
      parse (oms.map probeOp ++ failOp e :: rest) fcs pcs ⟨[], 0, [.vTokList []], 0⟩ =
        .error e) ∧
    (∀ (e : ParserError) (rest pcs : List Op),
      parse (oms.map probeOp) (fms.map probeOp ++ failOp e :: rest) pcs
          ⟨[], 0, [.vTokList []], 0⟩ = .error e) ∧
    (∀ (e : ParserError) (rest : List Op),
      parse (oms.map probeOp) (fms.map probeOp) (pms.map probeOp ++ failOp e :: rest)
          ⟨[], 0, [.vTokList []], 0⟩ = .error e) ∧
    (∀ pcs : List Op,
      parse [] [] pcs ⟨[lit "-z"], 0, [.vTokList []], 0⟩ = .error .unknownOption) ∧
    (parse [] [] [] ⟨[lit "--"], 0, [.vTokList []], 0⟩ =
      .ok ⟨[([] : Tok)], 0, [.vTokList []], 0⟩) := by
  refine ⟨?_, ?_, ?_, ?_, ?_, ?_⟩
  · have h1 := runCalls_probes oms [] 0 0 []
    simp only [List.nil_append] at h1
    have h2 := runCalls_probes fms [] 0 0 oms
    have h3 := runCalls_probes pms [] 0 0 (oms ++ fms)
    simp only [parse, show endOfOptionsIdx ([] : List Tok) = 0 from rfl, h1, bind,
      Except.bind, h2, show checkForUnknownIds [] 0 = .ok () from rfl, List.length_nil,
      show ((0 : Nat) != 0) = false from rfl, Bool.false_eq_true, if_false, h3,
      show checkForLeftOverArgs [] = .ok () from rfl, pure, Except.pure,
      List.append_assoc]
  · intro e rest fcs pcs
    have hfail := runCalls_fail e rest (oms.map probeOp) ⟨[], 0, [.vTokList []], 0⟩
      ⟨[], 0, [.vTokList ([] ++ oms)], 0⟩ (runCalls_probes oms [] 0 0 [])
    simp only [parse, show endOfOptionsIdx ([] : List Tok) = 0 from rfl, hfail, bind,
      Except.bind]
  · intro e rest pcs
    have h1 := runCalls_probes oms [] 0 0 []
    simp only [List.nil_append] at h1
    have hfail := runCalls_fail e rest (fms.map probeOp) ⟨[], 0, [.vTokList oms], 0⟩
      ⟨[], 0, [.vTokList (oms ++ fms)], 0⟩ (runCalls_probes fms [] 0 0 oms)
    simp only [parse, show endOfOptionsIdx ([] : List Tok) = 0 from rfl, h1, bind,
      Except.bind, hfail]
  · intro e rest
    have h1 := runCalls_probes oms [] 0 0 []
    simp only [List.nil_append] at h1
    have h2 := runCalls_probes fms [] 0 0 oms
    have hfail := runCalls_fail e rest (pms.map probeOp)
      ⟨[], 0, [.vTokList (oms ++ fms)], 0⟩
      ⟨[], 0, [.vTokList (oms ++ fms ++ pms)], 0⟩
      (runCalls_probes pms [] 0 0 (oms ++ fms))
    simp only [parse, show endOfOptionsIdx ([] : List Tok) = 0 from rfl, h1, bind,
      Except.bind, h2, show checkForUnknownIds [] 0 = .ok () from rfl, List.length_nil,
      show ((0 : Nat) != 0) = false from rfl, Bool.false_eq_true, if_false, hfail]
  · intro pcs
    rfl
  · rfl

/-- C6: declaring flags `r`, `G`, `v` and parsing the single token `-rGv`
sets all three flag targets to true and leaves no residual non-empty
token: each letter is removed from the grouped token in turn and the final
bare dash becomes the empty sentinel. -/
theorem C6_grouped_flags :
    parse [] [flagOp 'r' [] 0, flagOp 'G' [] 1, flagOp 'v' [] 2] []
        ⟨[lit "-rGv"], 0, [.vBool false, .vBool false, .vBool false], 0⟩ =
      .ok ⟨[([] : Tok)], 1, [.vBool true, .vBool true, .vBool true], 0⟩ := rfl

/-- C7 counterexample: the input `256x` has trailing unconverted
characters, yet the coercion reports the overflow result rather than the
parse-error result. -/
theorem C7_counterexample :
    parseOptionValueU8 0 (lit "256x") = (0, .overflowError) ∧
    (lit "256x").takeWhile Char.isDigit ≠ lit "256x" ∧
    OptionParseResult.overflowError ≠ OptionParseResult.error :=
  ⟨rfl, by decide, by decide⟩

/-- C7 (amended): for the 8-bit unsigned target, `255` converts to 255,
`256` overflows, `25x` is a parse error; generally an all-digit in-range
numeral succeeds with its value, a digit prefix beyond the range yields
the overflow result (even with trailing characters), and non-numeric input
or trailing characters after an in-range numeral yield the parse error. -/
theorem C7_u8_coercion (v : Nat) :
    parseOptionValueU8 v (lit "255") = (255, .success) ∧
    parseOptionValueU8 v (lit "256") = (v, .overflowError) ∧
    parseOptionValueU8 v (lit "25x") = (v, .error) ∧
    (∀ s : Tok, s ≠ [] → s.all Char.isDigit = true → digitsToNat s ≤ 255 →
      parseOptionValueU8 v s = (digitsToNat s, .success)) ∧
    (∀ s : Tok, 255 < digitsToNat (s.takeWhile Char.isDigit) →
      parseOptionValueU8 v s = (v, .overflowError)) ∧
    (∀ s : Tok, (s.takeWhile Char.isDigit = [] ∨
        (digitsToNat (s.takeWhile Char.isDigit) ≤ 255 ∧ s.takeWhile Char.isDigit ≠ s)) →
      parseOptionValueU8 v s = (v, .error)) := by
  refine ⟨rfl, rfl, rfl, ?_, ?_, ?_⟩
  · intro s hs hall hle
    have htw : s.takeWhile Char.isDigit = s :=
      List.takeWhile_eq_self_iff.mpr
        (fun x hx => by simpa using List.all_eq_true.mp hall x hx)
    have hne : s.isEmpty = false := by
      rcases s with _ | ⟨a, as⟩
      · exact absurd rfl hs
      · rfl
    simp only [parseOptionValueU8, htw]
    rw [if_neg (by simp [hne]), if_neg (by omega), if_neg (by simp)]
  · intro s hgt
    have hne : (s.takeWhile Char.isDigit).isEmpty = false := by
      rcases htw : s.takeWhile Char.isDigit with _ | ⟨a, as⟩
      · rw [htw] at hgt
        simp [digitsToNat] at hgt
      · rfl
    simp only [parseOptionValueU8]
    rw [if_neg (by simp [hne]), if_pos hgt]
  · intro s hcase
    rcases hcase with htw | ⟨hle, hne⟩
    · simp only [parseOptionValueU8]
      rw [if_pos (by rw [htw]; rfl)]
    · by_cases hd : s.takeWhile Char.isDigit = []
      · simp only [parseOptionValueU8]
        rw [if_pos (by rw [hd]; rfl)]
      · have hdne : (s.takeWhile Char.isDigit).isEmpty = false := by
          rcases htw : s.takeWhile Char.isDigit with _ | ⟨a, as⟩
          · exact absurd htw hd
          · rfl
        have hlenne : (s.takeWhile Char.isDigit).length ≠ s.length := by
          intro heq
          exact hne (List.IsPrefix.eq_of_length ( List.takeWhile_prefix _) heq)
        simp only [parseOptionValueU8]
        rw [if_neg (by simp [hdne]), if_neg (by omega), if_pos (by simpa using hlenne)]

theorem C7_u8_coercion_witness :
    parseOptionValueU8 7 (lit "12") = (digitsToNat (lit "12"), .success) ∧
    parseOptionValueU8 7 (lit "999x") = (7, .overflowError) ∧
    parseOptionValueU8 7 (lit "12x") = (7, .error) :=
  ⟨(C7_u8_coercion 7).2.2.2.1 (lit "12") (by decide) (by decide) (by decide),
    (C7_u8_coercion 7).2.2.2.2.1 (lit "999x") (by decide),
    (C7_u8_coercion 7).2.2.2.2.2 (lit "12x") (Or.inr ⟨by decide, by decide⟩)⟩

theorem flagIsSetChar_length (c : Char) :
    ∀ args : List Tok, ((flagIsSetChar c args).2).length = args.length := by
  intro args
  induction args with
  | nil => rfl
  | cons a rest ih =>
    simp only [flagIsSetChar]
    by_cases hgroup : a.getD 0 nulChar = '-' ∧ 1 < a.length ∧ a.getD 1 nulChar ≠ '-'
    · rw [if_pos hgroup]
      by_cases hpos : (a.findIdx (fun x => x == c) != a.length) = true
      · rw [if_pos hpos]
        simp
      · rw [if_neg hpos]
        rcases hrec : flagIsSetChar c rest with ⟨b, rest1⟩
        rw [hrec] at ih
        simpa using ih
    · rw [if_neg hgroup]
      rcases hrec : flagIsSetChar c rest with ⟨b, rest1⟩
      rw [hrec] at ih
      simpa using ih

theorem endOfOptionsIdx_le (args : List Tok) : endOfOptionsIdx args ≤ args.length :=
  List.findIdx_le_length _

theorem checkForUnknownIds_error_of_bad (args : List Tok) (endIdx j : Nat)
    (hj : j < endIdx) (hjlen : j < args.length) (h1 : args.getD j [] ≠ [])
    (h2 : (args.getD j []).getD 0 nulChar = '-') (h3 : args.getD j [] ≠ ['-']) :
    checkForUnknownIds args endIdx = .error .unknownOption := by
  apply checkTokens_error_of_bad
  refine ⟨args.getD j [], ?_, h1, h2, h3⟩
  have hjt : j < (args.take endIdx).length := by
    rw [List.length_take]
    omega
  have hsame : (args.take endIdx).getD j [] = args.getD j [] := by
    simp [List.getD_eq_getElem?_getD, List.getElem?_take, if_pos hj]
  rw [← hsame, List.getD_eq_getElem _ _ hjt]
  exact List.getElem_mem _

/-- C9: a flag with both identifiers, supplied through a grouped short
token and an exact long token before the end-of-options marker: the
short-form hit short-circuits the long-form scan, the long token survives
the flag phase unconsumed, and the parse then fails with unknown_option in
the unknown-identifier check instead of succeeding. -/
theorem C9_flag_short_circuit (c : Char) (nm : Tok) (args : List Tok) (v0 : Bool)
    (i j : Nat) (hnm : nm ≠ [])
    (hj : j < endOfOptionsIdx args) (hjtok : args.getD j [] = '-' :: '-' :: nm)
    (hi : i < args.length) (hi0 : (args.getD i []).getD 0 nulChar = '-')
    (hi1 : 1 < (args.getD i []).length) (hi2 : (args.getD i []).getD 1 nulChar ≠ '-')
    (hic : c ∈ args.getD i []) :
    ((getFlag v0 c nm args (endOfOptionsIdx args)).2).getD j [] = '-' :: '-' :: nm ∧
    parse [] [flagOp c nm 0] [] ⟨args, 0, [.vBool v0], 0⟩ = .error .unknownOption := by
  have hfound := flagIsSetChar_found c args i hi hi0 hi1 hi2 hic
  have hpres := flagIsSetChar_preserves_dashdash c args j (by rw [hjtok]; rfl)
  have hlen := flagIsSetChar_length c args
  rcases hrec : flagIsSetChar c args with ⟨b, a1⟩
  rw [hrec] at hfound hpres hlen
  simp only at hfound hpres hlen
  have hgetflag : getFlag v0 c nm args (endOfOptionsIdx args) = (true, a1) := by
    unfold getFlag
    rw [hrec]
    simp only
    rw [if_pos hfound]
  constructor
  · rw [hgetflag]
    simp only
    rw [hpres, hjtok]
  · have hflagop : flagOp c nm 0 ⟨args, endOfOptionsIdx args, [.vBool v0], 0⟩ =
        .ok ⟨a1, endOfOptionsIdx args, [.vBool true], 0⟩ := by
      simp only [flagOp, envBool, List.getD_cons_zero, hgetflag]
      rfl
    have hcheck : checkForUnknownIds a1 (endOfOptionsIdx args) = .error .unknownOption := by
      apply checkForUnknownIds_error_of_bad a1 (endOfOptionsIdx args) j hj
        (by rw [hlen]; have := endOfOptionsIdx_le args; omega)
      · rw [hpres, hjtok]
        exact List.cons_ne_nil _ _
      · rw [hpres, hjtok]
        rfl
      · rw [hpres, hjtok]
        intro h
        injection h with h4 h5
        exact List.cons_ne_nil _ _ h5
    simp only [parse, runCalls, List.foldlM, bind, Except.bind, pure, Except.pure,
      hflagop, hcheck]

/-- C2 counterexample: the three supply forms are not equivalent for every
value string V, and each value string excluded by the amended equivalence
theorem genuinely breaks it. For V = "=a" the attached form -kV (the token
-k=a) parses to "a" while the separate form parses to "=a". For V empty
the separate form succeeds and sets the target to the empty string, while
the attached form (the bare token -k) and the attached-equals form (the
token -k=) fail with tooFewArguments. For V = "--" the separate form fails
with tooFewArguments (the value position is the end-of-options marker)
while the attached form (the token -k--) succeeds with value "--". -/
theorem C2_counterexample :
    Except.map Prod.fst (getOptionStr (fun _ => true) ⟨'k', [], false⟩ []
        [lit "-k=a"] (endOfOptionsIdx [lit "-k=a"])) = .ok (lit "a") ∧
    Except.map Prod.fst (getOptionStr (fun _ => true) ⟨'k', [], false⟩ []
        [lit "-k", lit "=a"] (endOfOptionsIdx [lit "-k", lit "=a"])) = .ok (lit "=a") ∧
    lit "a" ≠ lit "=a" ∧
    Except.map Prod.fst (getOptionStr (fun _ => true) ⟨'k', [], false⟩ (lit "z")
        [lit "-k", []] (endOfOptionsIdx [lit "-k", []])) = .ok [] ∧
    Except.map Prod.fst (getOptionStr (fun _ => true) ⟨'k', [], false⟩ (lit "z")
        [lit "-k"] (endOfOptionsIdx [lit "-k"])) = .error .tooFewArguments ∧
    Except.map Prod.fst (getOptionStr (fun _ => true) ⟨'k', [], false⟩ (lit "z")
        [lit "-k="] (endOfOptionsIdx [lit "-k="])) = .error .tooFewArguments ∧
    Except.map Prod.fst (getOptionStr (fun _ => true) ⟨'k', [], false⟩ []
        [lit "-k", lit "--"] (endOfOptionsIdx [lit "-k", lit "--"])) =
      .error .tooFewArguments ∧
    Except.map Prod.fst (getOptionStr (fun _ => true) ⟨'k', [], false⟩ []
        [lit "-k--"] (endOfOptionsIdx [lit "-k--"])) = .ok (lit "--") :=
  ⟨rfl, rfl, by decide, rfl, rfl, rfl, rfl, rfl⟩

theorem C2_value_form_equivalence_witness :
    Except.map Prod.fst (getOptionStr (fun _ => true) ⟨'k', [], false⟩ []
        ['-' :: 'k' :: lit "av"] (endOfOptionsIdx ['-' :: 'k' :: lit "av"])) =
      .ok (lit "av") ∧
    Except.map Prod.fst (getOptionStr (fun _ => true) ⟨'k', [], false⟩ []
        [['-', 'k'], lit "av"] (endOfOptionsIdx [['-', 'k'], lit "av"])) = .ok (lit "av") ∧
    Except.map Prod.fst (getOptionStr (fun _ => true) ⟨'k', [], false⟩ []
        ['-' :: 'k' :: '=' :: lit "av"]
        (endOfOptionsIdx ['-' :: 'k' :: '=' :: lit "av"])) = .ok (lit "av") :=
  C2_value_form_equivalence 'k' (lit "av") [] [] false (by decide) (by decide) (by decide)
    (by decide) (by decide)

/-- C3 counterexample: a container option supplied once via the short and
once via the long identifier keeps only the long-form value: the long pass
clears the values collected by the short pass. -/
theorem C3_counterexample :
    Except.map Prod.fst (getOptionStrList (fun _ => true) ⟨'i', lit "int", false⟩ []
        [lit "-i=1", lit "--int=2"] (endOfOptionsIdx [lit "-i=1", lit "--int=2"])) =
      .ok [lit "2"] ∧
    [lit "2"] ≠ [lit "1", lit "2"] :=
  ⟨rfl, by decide⟩

theorem C3_container_in_order_witness :
    Except.map Prod.fst (getOptionStrList (fun _ => true) ⟨'i', lit "int", false⟩
        [lit "seed"] [lit "-i=1", lit "x", lit "-i=2"] 3) = .ok [lit "1", lit "2"] := by
  refine Eq.trans (C3_container_in_order 'i' (lit "int")
    [lit "-i=1", lit "x", lit "-i=2"] [lit "seed"] 3 ?_ ?_) ?_
  · intro i hi hm
    interval_cases i
    · exact ⟨lit "1", by decide, by decide⟩
    · exact absurd hm (by decide)
    · exact ⟨lit "2", by decide, by decide⟩
  · intro i hi
    interval_cases i <;> decide
  · rfl

/-- C4 counterexample: grouped-short-flag retrieval consumes a token lying
beyond the end-of-options marker (here the marker is at position 0 and the
token at position 1 is blanked). -/
theorem C4_counterexample :
    endOfOptionsIdx [lit "--", lit "-r"] = 0 ∧
    (flagIsSetChar 'r' [lit "--", lit "-r"]).2.getD 1 [] ≠
      [lit "--", lit "-r"].getD 1 [] :=
  ⟨rfl, by decide⟩

theorem C4_marker_respected_witness :
    getOptionByIdScalar parseOptionValueStr [] [lit "-x=1", lit "--", lit "-y"] 1
        (.short 'x') = .ok (true, lit "1", [([] : Tok), lit "--", lit "-y"]) ∧
    ([([] : Tok), lit "--", lit "-y"] : List Tok).getD 2 [] =
      [lit "-x=1", lit "--", lit "-y"].getD 2 [] :=
  ⟨rfl, C4_marker_respected.1 Tok parseOptionValueStr [] [lit "-x=1", lit "--", lit "-y"] 1
    (.short 'x') (true, lit "1", [([] : Tok), lit "--", lit "-y"]) rfl 2 (by decide)⟩

theorem C5_scalar_multiple_times_witness :
    getOptionStr (fun _ => true) ⟨'i', lit "int", false⟩ []
        [lit "-i=1", lit "--int=1"] 2 = .error .optionDeclaredMultipleTimes := by
  refine (C5_scalar_multiple_times 'i' (lit "int") [lit "-i=1", lit "--int=1"] [] 2 false
    (by decide) ?_ ?_).1 ⟨0, by decide, by decide⟩ ⟨1, by decide, by decide⟩
  · intro i hi hm
    interval_cases i
    · exact ⟨lit "1", by decide, by decide⟩
    · exact absurd hm (by decide)
  · intro i hi hm
    interval_cases i
    · exact absurd hm (by decide)
    · exact ⟨lit "1", by decide, by decide⟩

theorem C8_too_few_exactly_witness :
    identifyAndRetrieveOptionValue parseOptionValueStr [] [lit "-k="] 1 0 (.short 'k') =
      .error .tooFewArguments :=
  (C8_too_few_exactly Tok parseOptionValueStr [] [lit "-k="] 1 0 (.short 'k') ['=']
    (by decide) (by decide)).mpr (Or.inl rfl)

theorem C9_flag_short_circuit_witness :
    ((getFlag false 'c' (lit "name") [lit "-c", lit "--name"]
        (endOfOptionsIdx [lit "-c", lit "--name"])).2).getD 1 [] =
      '-' :: '-' :: lit "name" ∧
    parse [] [flagOp 'c' (lit "name") 0] []
        ⟨[lit "-c", lit "--name"], 0, [.vBool false], 0⟩ = .error .unknownOption :=
  C9_flag_short_circuit 'c' (lit "name") [lit "-c", lit "--name"] false 0 1
    (by decide) (by decide) (by decide) (by decide) (by decide) (by decide) (by decide)
    (by decide)
